import Mathlib

/-!
Verification of the mate-graph-to-kinematic-tree synthesis engine of the
onshape-robotics-toolkit repository, embedded shallowly from
src/onshape_api/urdf.py and the data model in src/onshape_api/models.

Modelling conventions:
* Numeric scalars are rationals; every numeral of the source is modelled by
  the exact rational it denotes, and np.pi by the exact value of the IEEE-754
  double closest to pi.
* Homogeneous 4x4 transforms are functions of two Nat indices, read on
  0..3; np.linalg.inv is the classical adjugate-over-determinant inverse,
  written out explicitly so that it is executable.
* Python dictionaries are association lists that keep insertion order;
  writing an existing key replaces the value in place, as CPython does.
* Python exceptions (KeyError, IndexError) are modelled by Option: a step
  that raises yields none and the whole run yields none.
* In-place mutation of caller-owned dictionaries is modelled by explicit
  state passing: functions that mutate their arguments also return the
  post-state of those arguments.
* The event loop of asyncio is modelled by an explicit schedule: every edge
  task is split at its real suspension point (the awaited mesh download
  inside get_robot_link) into two atomic segments, and a schedule is a list
  of task indices saying which task runs its next segment.
* The call random.SystemRandom().choice(list(Colors)) is modelled by an
  oracle from link name to Colors that is not part of the assembly input.
-/

namespace Onshape

/-! ## Exact 4x4 matrix arithmetic -/

abbrev Mat4 : Type := Nat → Nat → ℚ

def mul4 (A B : Mat4) : Mat4 := fun i j =>
  A i 0 * B 0 j + A i 1 * B 1 j + A i 2 * B 2 j + A i 3 * B 3 j

def eye4 : Mat4 := fun i j => if i = j then 1 else 0

/-- np.eye(4) with the translation column set to a 3-vector. -/
def transTf (v : List ℚ) : Mat4 := fun i j =>
  if i < 3 then
    (if j = 3 then v.getD i 0 else if i = j then 1 else 0)
  else (if j = 3 then 1 else 0)

/-- Index arithmetic of a minor: skip row or column r. -/
def skip (r i : Nat) : Nat := if i < r then i else i + 1

def det3of (f : Nat → Nat → ℚ) : ℚ :=
  f 0 0 * (f 1 1 * f 2 2 - f 1 2 * f 2 1)
    - f 0 1 * (f 1 0 * f 2 2 - f 1 2 * f 2 0)
    + f 0 2 * (f 1 0 * f 2 1 - f 1 1 * f 2 0)

def minor4 (A : Mat4) (r c : Nat) : Nat → Nat → ℚ := fun i j =>
  A (skip r i) (skip c j)

def det4 (A : Mat4) : ℚ :=
  A 0 0 * det3of (minor4 A 0 0) - A 0 1 * det3of (minor4 A 0 1)
    + A 0 2 * det3of (minor4 A 0 2) - A 0 3 * det3of (minor4 A 0 3)

def cof4 (A : Mat4) (i j : Nat) : ℚ :=
  (-1 : ℚ) ^ (i + j) * det3of (minor4 A i j)

/-- np.linalg.inv on a 4x4 matrix: transposed cofactors over the
determinant. -/
def inv4 (A : Mat4) : Mat4 := fun i j => (det4 A)⁻¹ * cof4 A j i

/-! ## Python dictionaries as ordered association lists -/

def dlookup {α : Type} (m : List (String × α)) (k : String) : Option α :=
  match m with
  | [] => none
  | (k₁, v) :: rest => if k₁ = k then some v else dlookup rest k

/-- Writing a key: replace in place when present, append when new. -/
def dinsert {α : Type} (m : List (String × α)) (k : String) (v : α) :
    List (String × α) :=
  match m with
  | [] => [(k, v)]
  | (k₁, v₁) :: rest =>
    if k₁ = k then (k, v) :: rest else (k₁, v₁) :: dinsert rest k v

/-- Mutating the value stored under a key, leaving the dictionary shape alone. -/
def dupdate {α : Type} (m : List (String × α)) (k : String) (f : α → α) :
    List (String × α) :=
  match m with
  | [] => []
  | (k₁, v₁) :: rest =>
    if k₁ = k then (k₁, f v₁) :: rest else (k₁, v₁) :: dupdate rest k f

/-- dict.pop: remove the entry stored under a key. -/
def derase {α : Type} (m : List (String × α)) (k : String) :
    List (String × α) :=
  match m with
  | [] => []
  | (k₁, v₁) :: rest =>
    if k₁ = k then rest else (k₁, v₁) :: derase rest k

/-! ## Data model (src/onshape_api/models/assembly.py) -/

/-- MATE_TYPE from models/assembly.py. -/
inductive MATE_TYPE : Type
  | SLIDER
  | CYLINDRICAL
  | REVOLUTE
  | PIN_SLOT
  | PLANAR
  | BALL
  | FASTENED
  | PARALLEL
deriving DecidableEq

/-- RELATION_TYPE from models/assembly.py. -/
inductive RELATION_TYPE : Type
  | LINEAR
  | GEAR
  | SCREW
  | RACK_AND_PINION
deriving DecidableEq

/-- MatedCS from models/assembly.py: three axis vectors and an origin,
each a list of three scalars. -/
structure MatedCS where
  xAxis : List ℚ
  yAxis : List ℚ
  zAxis : List ℚ
  origin : List ℚ
deriving DecidableEq

/-- part_to_mate_tf from models/assembly.py: the rotation block has the
three axes as columns and the origin as the translation column. -/
def MatedCS.part_to_mate_tf (cs : MatedCS) : Mat4 := fun i j =>
  if i < 3 then
    (if j = 0 then cs.xAxis.getD i 0
     else if j = 1 then cs.yAxis.getD i 0
     else if j = 2 then cs.zAxis.getD i 0
     else cs.origin.getD i 0)
  else (if j = 3 then 1 else 0)

/-- Modelled from the spec: urdf.py reads matedEntities[i].parentCS.part_tf,
the placement transform of a nested rigid sub-assembly (spec section 3), but
the class carrying parentCS is not in the sources; we model it as a second
coordinate system whose transform is built like part_to_mate_tf. -/
structure ParentCS where
  cs : MatedCS
deriving DecidableEq

def ParentCS.part_tf (p : ParentCS) : Mat4 := p.cs.part_to_mate_tf

/-- MatedEntity from models/assembly.py, extended with the parentCS field
that urdf.py reads (see ParentCS). -/
structure MatedEntity where
  matedOccurrence : List String
  matedCS : MatedCS
  parentCS : ParentCS
deriving DecidableEq

/-- MateFeatureData from models/assembly.py, extended with the feature id
that urdf.py reads as mate.id. -/
structure MateFeatureData where
  id : String
  matedEntities : List MatedEntity
  mateType : MATE_TYPE
  name : String
deriving DecidableEq

/-- MateRelationMate from models/assembly.py. -/
structure MateRelationMate where
  featureId : String
  occurrence : List String
deriving DecidableEq

/-- MateRelationFeatureData from models/assembly.py; the ratio field is
kept under a primed name for technical reasons and is the optional
relationRatio of the source. -/
structure MateRelationFeatureData where
  relationType : RELATION_TYPE
  mates : List MateRelationMate
  reverseDirection : Bool
  relationRatio' : Option ℚ
  name : String
deriving DecidableEq

/-- MassProperties from models/mass.py (not in the sources): mass vector,
center of mass, inertia matrix. Field names follow the accesses in
urdf.py. -/
structure MassProperties where
  mass : List ℚ
  center_of_mass : List ℚ
  inertia : List (List ℚ)
deriving DecidableEq

/-- Modelled from the spec: center_of_mass_wrt affine-transforms the center
of mass by the given transform (spec section 4.2); models/mass.py is not in
the sources. -/
def MassProperties.center_of_mass_wrt (mp : MassProperties) (tf : Mat4) :
    List ℚ :=
  let c : Nat → ℚ := fun i => mp.center_of_mass.getD i 0
  [tf 0 0 * c 0 + tf 0 1 * c 1 + tf 0 2 * c 2 + tf 0 3,
   tf 1 0 * c 0 + tf 1 1 * c 1 + tf 1 2 * c 2 + tf 1 3,
   tf 2 0 * c 0 + tf 2 1 * c 1 + tf 2 2 * c 2 + tf 2 3]

/-- Modelled from the spec: inertia_wrt conjugates the inertia tensor by the
rotation block, R I Rt (spec section 4.2); models/mass.py is not in the
sources. -/
def MassProperties.inertia_wrt (mp : MassProperties) (tf : Mat4) :
    Nat → Nat → ℚ :=
  let I : Nat → Nat → ℚ := fun i j => (mp.inertia.getD i []).getD j 0
  fun i j =>
    tf i 0 * I 0 0 * tf j 0 + tf i 0 * I 0 1 * tf j 1 + tf i 0 * I 0 2 * tf j 2
      + tf i 1 * I 1 0 * tf j 0 + tf i 1 * I 1 1 * tf j 1
      + tf i 1 * I 1 2 * tf j 2 + tf i 2 * I 2 0 * tf j 0
      + tf i 2 * I 2 1 * tf j 1 + tf i 2 * I 2 2 * tf j 2

/-- Part from models/assembly.py restricted to the fields urdf.py reads;
documentVersion and rigidAssemblyWorkspaceId are optional identifiers. -/
structure Part where
  documentId : String
  elementId : String
  partId : String
  documentVersion : Option String
  rigidAssemblyWorkspaceId : Option String
  isRigidAssembly : Bool
  MassProperty : MassProperties
deriving DecidableEq

/-! ## Output model (models/link.py and models/joint.py are not in the
sources; shapes follow the spec, sections 3 and 4.3) -/

/-- Modelled from the spec: the fixed color palette of models/link.py; the
palette members are irrelevant to the claims, only that there are at least
two. -/
inductive Colors : Type
  | red
  | green
  | blue
  | yellow
  | cyan
  | magenta
deriving DecidableEq

/-- Modelled from the spec: an origin is a homogeneous transform (spec
section 4.2); models/link.py is not in the sources, so we keep the full
matrix instead of the serialized xyz and rpy pair. -/
structure Origin where
  tf : Mat4

def Origin.from_matrix (M : Mat4) : Origin := ⟨M⟩

def Origin.zero_origin : Origin := ⟨eye4⟩

/-- Origin(xyz=..., rpy=(0,0,0)) of the source. -/
def Origin.fromXyz (xyz : List ℚ) : Origin := ⟨transTf xyz⟩

structure Material where
  name : String
  color : Colors
deriving DecidableEq

structure MeshGeometry where
  filename : String
deriving DecidableEq

structure VisualLink where
  name : String
  origin : Origin
  geometry : MeshGeometry
  material : Material

structure CollisionLink where
  name : String
  origin : Origin
  geometry : MeshGeometry

structure Inertia where
  ixx : ℚ
  ixy : ℚ
  ixz : ℚ
  iyy : ℚ
  iyz : ℚ
  izz : ℚ
deriving DecidableEq

structure InertialLink where
  origin : Origin
  mass : ℚ
  inertia : Inertia

/-- Link from models/link.py: a body; all parts beyond the name are
optional, and the auxiliary ball-joint bodies carry only a name. -/
structure Link where
  name : String
  visual : Option VisualLink
  inertial : Option InertialLink
  collision : Option CollisionLink

structure JointLimits where
  effort : ℚ
  velocity : ℚ
  lower : ℚ
  upper : ℚ
deriving DecidableEq

structure JointDynamics where
  damping : ℚ
  friction : ℚ
deriving DecidableEq

structure Axis where
  xyz : List ℚ
deriving DecidableEq

/-- JointMimic from models/joint.py: the source can store None as the
target joint name, hence the Option. -/
structure JointMimic where
  joint : Option String
  multiplier : ℚ
  offset : ℚ
deriving DecidableEq

inductive JointKind : Type
  | revolute
  | fixed
  | prismatic
  | dummy
deriving DecidableEq

/-- BaseJoint and its subclasses from models/joint.py, flattened into one
record tagged by kind; absent fields of a subclass are none. -/
structure BaseJoint where
  kind : JointKind
  name : String
  parent : String
  child : String
  origin : Origin
  limits : Option JointLimits
  axis : Option Axis
  dynamics : Option JointDynamics
  mimic : Option JointMimic

def RevoluteJoint (name parent child : String) (origin : Origin)
    (limits : JointLimits) (axis : Axis) (dynamics : JointDynamics)
    (mimic : Option JointMimic) : BaseJoint :=
  ⟨.revolute, name, parent, child, origin, some limits, some axis,
    some dynamics, mimic⟩

def PrismaticJoint (name parent child : String) (origin : Origin)
    (limits : JointLimits) (axis : Axis) (dynamics : JointDynamics)
    (mimic : Option JointMimic) : BaseJoint :=
  ⟨.prismatic, name, parent, child, origin, some limits, some axis,
    some dynamics, mimic⟩

def FixedJoint (name parent child : String) (origin : Origin) : BaseJoint :=
  ⟨.fixed, name, parent, child, origin, none, none, none, none⟩

def DummyJoint (name parent child : String) (origin : Origin) : BaseJoint :=
  ⟨.dummy, name, parent, child, origin, none, none, none, none⟩

/-- The exact value of the IEEE-754 double np.pi. -/
def NP_PI : ℚ := 884279719003555 / 281474976710656

/-- The Asset record of connect.py (imported as DownloadableLink by
urdf.py), minus the client handle: the identifiers, transform and file name
handed to the download stage. -/
structure DownloadableLink where
  did : String
  wtype : String
  wid : String
  eid : String
  partID : Option String
  transform : Mat4
  is_rigid_assembly : Bool
  file_name : String

/-- relative_path of connect.py: the mesh file inside the meshes
directory. -/
def DownloadableLink.relative_path (d : DownloadableLink) : String :=
  "meshes/" ++ d.file_name

/-! ## Keys and constants (src/onshape_api/parse.py is not in the sources) -/

/-- Modelled from the spec: the joiner of parse.py used to build the
canonical mate key from the two occurrence names (spec section 3). -/
def MATE_JOINER : String := "-MATE-"

/-- Modelled from the spec: entity index 0 is the parent side of an
oriented mate (spec section 4.1); parse.py is not in the sources. -/
def PARENT : Nat := 0

/-- Modelled from the spec: mates[0] of a relation is the driving mate
(spec section 4.4); parse.py is not in the sources. -/
def RELATION_PARENT : Nat := 0

/-- The joined dictionary key of a directed edge. -/
def edgeKey (p c : String) : String := p ++ MATE_JOINER ++ c

/-- Strip a leading pattern from a character list. -/
def stripPat : List Char → List Char → Option (List Char)
  | [], rest => some rest
  | _ :: _, [] => none
  | s :: ss, r :: rs => if r = s then stripPat ss rs else none

/-- str.split of Python on a fixed separator, written with explicit fuel so
that it evaluates inside the kernel; every step shortens the rest, so fuel
one above the input length never runs out. -/
def splitGo (sep : List Char) : Nat → List Char → List Char → List (List Char)
  | 0, acc, rest => [acc.reverse ++ rest]
  | _ + 1, acc, [] => [acc.reverse]
  | fuel + 1, acc, c :: cs =>
    match stripPat sep (c :: cs) with
    | some rest => acc.reverse :: splitGo sep fuel [] rest
    | none => splitGo sep fuel (c :: acc) cs

/-- key.split(MATE_JOINER) of the source. -/
def pySplit (s sep : String) : List String :=
  (splitGo sep.data (s.data.length + 1) [] s.data).map String.mk

/-- mate_keys of get_topological_mates: every mate key split on the
joiner. -/
def mateKeySplits (mates : List (String × MateFeatureData)) :
    List (List String) :=
  mates.map fun kv => pySplit kv.1 MATE_JOINER

/-- The graph edges viewed as split tuples, for the rogue-mate test. -/
def edgeSplits (edges : List (String × String)) : List (List String) :=
  edges.map fun e => [e.1, e.2]

/-- A placeholder entity used only to give list indexing a total type; the
source raises IndexError where this default would be read. -/
def defaultEntity : MatedEntity :=
  ⟨[], ⟨[], [], [], []⟩, ⟨⟨[], [], [], []⟩⟩⟩

/-! ## get_joint_name and the mimic construction (urdf.py lines 52 to 54
and 355 to 365) -/

/-- get_joint_name of urdf.py: invert the mates dictionary from feature id
to dictionary key; a dict comprehension keeps the last entry for a
duplicated id, hence the search from the rear. -/
def get_joint_name (mate_id : String)
    (mates : List (String × MateFeatureData)) : Option String :=
  (mates.reverse.find? fun kv => kv.2.id == mate_id).map Prod.fst

/-- The expression relation.relationRatio or 1.0 of urdf.py: Python
truthiness maps both None and 0 to 1.0. -/
def ratioOrOne (r : Option ℚ) : ℚ :=
  match r with
  | some q => if q = 0 then 1 else q
  | none => 1

/-- The joint_mimic construction of urdf.py lines 355 to 365, looking the
relation up under the id of the resolved mate; the outer none is an
IndexError on relation.mates, which the source would raise. -/
def mkJointMimic (topoRel : List (String × MateRelationFeatureData))
    (topo : List (String × MateFeatureData)) (mate : MateFeatureData) :
    Option (Option JointMimic) :=
  match dlookup topoRel mate.id with
  | none => some none
  | some relation =>
    match relation.mates.get? RELATION_PARENT with
    | none => none
    | some drv =>
      some (some ⟨get_joint_name drv.featureId topo,
        ratioOrOne relation.relationRatio', 0⟩)

/-! ## get_robot_link (urdf.py lines 57 to 130) -/

structure RobotLinkResult where
  link : Link
  stl_to_link_tf : Mat4
  dl : DownloadableLink

/-- get_robot_link of urdf.py. The random color draw is an oracle indexed
by the link name; the mesh download is pure data here (the network call is
outside the core). -/
def get_robot_link (colorDraw : String → Colors) (name : String)
    (part : Part) (wid : String) (mate : Option MateFeatureData) :
    RobotLinkResult :=
  let link_to_stl_tf : Mat4 :=
    match mate with
    | none => transTf part.MassProperty.center_of_mass
    | some m => (m.matedEntities.getD 0 defaultEntity).matedCS.part_to_mate_tf
  let stl_to_link_tf := inv4 link_to_stl_tf
  let mass := part.MassProperty.mass.getD 0 0
  let com := part.MassProperty.center_of_mass_wrt stl_to_link_tf
  let inertia := part.MassProperty.inertia_wrt stl_to_link_tf
  let wtype := if part.documentVersion.isSome then "v" else "w"
  let mvwid :=
    match part.documentVersion with
    | some v => v
    | none =>
      match part.rigidAssemblyWorkspaceId with
      | some r => r
      | none => wid
  let dl : DownloadableLink :=
    ⟨part.documentId, wtype, mvwid, part.elementId, some part.partId,
      stl_to_link_tf, part.isRigidAssembly, name ++ ".stl"⟩
  let mesh_path := dl.relative_path
  { link :=
      { name := name
        visual := some ⟨name ++ "-visual", Origin.zero_origin, ⟨mesh_path⟩,
          ⟨name ++ "-material", colorDraw name⟩⟩
        inertial := some ⟨Origin.fromXyz com, mass,
          ⟨inertia 0 0, inertia 0 1, inertia 0 2,
            inertia 1 1, inertia 1 2, inertia 2 2⟩⟩
        collision := some ⟨name ++ "-collision", Origin.zero_origin,
          ⟨mesh_path⟩⟩ }
    stl_to_link_tf := stl_to_link_tf
    dl := dl }

/-! ## get_robot_joint (urdf.py lines 133 to 258) -/

/-- get_robot_joint of urdf.py: map a mate onto joints and auxiliary
links. -/
def get_robot_joint (sanitize : String → String) (parent child : String)
    (mate : MateFeatureData) (stl_to_parent_tf : Mat4)
    (mimic : Option JointMimic) (is_rigid_assembly : Bool) :
    List BaseJoint × List Link :=
  let pe := mate.matedEntities.getD PARENT defaultEntity
  let parent_to_mate_tf :=
    if is_rigid_assembly then
      mul4 pe.parentCS.part_tf pe.matedCS.part_to_mate_tf
    else pe.matedCS.part_to_mate_tf
  let stl_to_mate_tf := mul4 stl_to_parent_tf parent_to_mate_tf
  let origin := Origin.from_matrix stl_to_mate_tf
  let sanitized_name := sanitize mate.name
  match mate.mateType with
  | .REVOLUTE =>
    ([RevoluteJoint sanitized_name parent child origin
        ⟨1, 1, -NP_PI, NP_PI⟩ ⟨[0, 0, -1]⟩ ⟨0.1, 0.1⟩ mimic], [])
  | .FASTENED =>
    ([FixedJoint sanitized_name parent child origin], [])
  | .SLIDER =>
    ([PrismaticJoint sanitized_name parent child origin
        ⟨1, 1, -0.1, 0.1⟩ ⟨[0, 0, -1]⟩ ⟨0.1, 0.1⟩ mimic], [])
  | .CYLINDRICAL =>
    ([PrismaticJoint sanitized_name parent child origin
        ⟨1, 1, -0.1, 0.1⟩ ⟨[0, 0, -1]⟩ ⟨0.1, 0.1⟩ mimic], [])
  | .BALL =>
    let dummy_x : Link := ⟨parent ++ "-dummy-x", none, none, none⟩
    let dummy_y : Link := ⟨parent ++ "-dummy-y", none, none, none⟩
    ([RevoluteJoint (sanitized_name ++ "-x") parent dummy_x.name origin
        ⟨1, 1, -NP_PI, NP_PI⟩ ⟨[1, 0, 0]⟩ ⟨0.1, 0.1⟩ mimic,
      RevoluteJoint (sanitized_name ++ "-y") dummy_x.name dummy_y.name
        Origin.zero_origin ⟨1, 1, -NP_PI, NP_PI⟩ ⟨[0, 1, 0]⟩ ⟨0.1, 0.1⟩ mimic,
      RevoluteJoint (sanitized_name ++ "-z") dummy_y.name child
        Origin.zero_origin ⟨1, 1, -NP_PI, NP_PI⟩ ⟨[0, 0, -1]⟩ ⟨0.1, 0.1⟩ mimic],
     [dummy_x, dummy_y])
  | _ =>
    ([DummyJoint sanitized_name parent child origin], [])

/-- The warning the logger emits in the fallthrough branch of
get_robot_joint. -/
def get_robot_joint_warning (mate : MateFeatureData) : List String :=
  match mate.mateType with
  | .REVOLUTE | .FASTENED | .SLIDER | .CYLINDRICAL | .BALL => []
  | _ => ["Unsupported joint type"]

/-! ## get_topological_mates (urdf.py lines 261 to 312) -/

/-- Reversing matedEntities in place on the mate object. -/
def revEntities (m : MateFeatureData) : MateFeatureData :=
  { m with matedEntities := m.matedEntities.reverse }

/-- One iteration of the loop of get_topological_mates over a graph edge,
threading the mutable state: the result dictionary, the relation
dictionary (aliased to the caller dictionary when nonempty) and the caller
mates dictionary. none is the KeyError the source raises when the mate is
absent under the looked-up key. -/
def gtmStep (splits : List (List String)) (edges0 : List (String × String))
    (topo : List (String × MateFeatureData))
    (rel : List (String × MateRelationFeatureData))
    (mates : List (String × MateFeatureData)) (e : String × String) :
    Option (List (String × MateFeatureData) ×
      List (String × MateRelationFeatureData) ×
      List (String × MateFeatureData)) :=
  let p := e.1
  let c := e.2
  let key := edgeKey p c
  if [c, p] ∈ splits ∧ [c, p] ∉ edgeSplits edges0 then
    match dlookup mates (edgeKey c p) with
    | none => none
    | some m =>
      let m' := revEntities m
      some (dinsert topo key m',
        (if rel ≠ [] ∧ (dlookup rel (edgeKey c p)).isSome then
          match dlookup rel (edgeKey c p) with
          | some r => derase (dinsert rel key r) (edgeKey c p)
          | none => rel
        else rel),
        dupdate mates (edgeKey c p) fun _ => m')
  else
    match dlookup mates key with
    | none => none
    | some m => some (dinsert topo key m, rel, mates)

def gtmGo (splits : List (List String)) (edges0 : List (String × String))
    (edges : List (String × String))
    (topo : List (String × MateFeatureData))
    (rel : List (String × MateRelationFeatureData))
    (mates : List (String × MateFeatureData)) :
    Option (List (String × MateFeatureData) ×
      List (String × MateRelationFeatureData) ×
      List (String × MateFeatureData)) :=
  match edges with
  | [] => some (topo, rel, mates)
  | e :: rest =>
    match gtmStep splits edges0 topo rel mates e with
    | none => none
    | some (t, r, ms) => gtmGo splits edges0 rest t r ms

/-- The full result of get_topological_mates as seen by the caller: the
returned pair plus the post-state of the two dictionaries the caller passed
in (the source mutates them in place). -/
structure TopoResult where
  topo : List (String × MateFeatureData)
  topoRel : List (String × MateRelationFeatureData)
  matesPost : List (String × MateFeatureData)
  relationsPost : List (String × MateRelationFeatureData)
deriving DecidableEq

/-- get_topological_mates of urdf.py. The returned relation table is the
caller relations dictionary itself whenever that dictionary is nonempty, so
relationsPost always coincides with topoRel. -/
def get_topological_mates (edges : List (String × String))
    (mates : List (String × MateFeatureData))
    (relations : List (String × MateRelationFeatureData)) :
    Option TopoResult :=
  let splits := mateKeySplits mates
  match gtmGo splits edges edges [] relations mates with
  | none => none
  | some (topo, rel, matesPost) => some ⟨topo, rel, matesPost, rel⟩

/-! ## The orchestrator (urdf.py lines 315 to 389) -/

/-- The shared maps the edge tasks write into, plus the observable side
channels: every key written into the link, joint and asset maps, in write
order, and the warnings the logger records. -/
structure SynthState where
  links : List (String × Link)
  joints : List (String × BaseJoint)
  assets : List (String × DownloadableLink)
  stlTf : List (String × Mat4)
  linkWrites : List String
  jointWrites : List String
  assetWrites : List String
  warnings : List String

/-- What a task carries across its suspension point: the child it still has
to synthesize and the mate key of its edge. -/
structure Pending where
  child : String
  mateKey : String
deriving DecidableEq

/-- Per-task progress: pc 0 is not started, 1 is suspended at the mesh
download inside get_robot_link, 2 is finished. -/
structure TaskState where
  pc : Nat
  pend : Option Pending
deriving DecidableEq

/-- The read-only context an edge task closes over. -/
structure SynthCtx where
  sanitize : String → String
  colorDraw : String → Colors
  parts : List (String × Part)
  topo : List (String × MateFeatureData)
  topoRel : List (String × MateRelationFeatureData)
  wid : String

/-- The first segment of process_edge (urdf.py lines 344 to 377): read the
parent transform (warn and finish the task when absent), resolve the
relation and mimic, synthesize the joints and auxiliary links and write
them into the shared maps. none models an exception escaping the task. -/
def processEdgeSeg1 (ctx : SynthCtx) (st : SynthState)
    (e : String × String) : Option (SynthState × Option Pending) :=
  let p := e.1
  let c := e.2
  let mate_key := edgeKey p c
  match dlookup st.stlTf p with
  | none =>
    some ({ st with
      warnings := st.warnings ++
        ["Parent " ++ p ++ " not found in stl_to_link_tf_map"] }, none)
  | some parent_tf =>
    match dlookup ctx.topo mate_key with
    | none => none
    | some mate =>
      match mkJointMimic ctx.topoRel ctx.topo mate with
      | none => none
      | some joint_mimic =>
        match dlookup ctx.parts p with
        | none => none
        | some parentPart =>
          let (joint_list, link_list) :=
            get_robot_joint ctx.sanitize p c mate parent_tf joint_mimic
              parentPart.isRigidAssembly
          some ({ st with
            links := link_list.foldl (fun m l => dinsert m l.name l) st.links
            linkWrites := st.linkWrites ++ link_list.map Link.name
            joints := joint_list.foldl (fun m j => dinsert m j.name j) st.joints
            jointWrites := st.jointWrites ++ joint_list.map BaseJoint.name
            warnings := st.warnings ++ get_robot_joint_warning mate },
            some ⟨c, mate_key⟩)

/-- The second segment of process_edge (urdf.py lines 379 to 385), after
the awaited download: build the child link and write transform, asset and
link into the shared maps. -/
def processEdgeSeg2 (ctx : SynthCtx) (st : SynthState) (pend : Pending) :
    Option SynthState :=
  match dlookup ctx.topo pend.mateKey with
  | none => none
  | some mate =>
    match dlookup ctx.parts pend.child with
    | none => none
    | some childPart =>
      let r := get_robot_link ctx.colorDraw pend.child childPart ctx.wid
        (some mate)
      some { st with
        links := dinsert st.links pend.child r.link
        linkWrites := st.linkWrites ++ [pend.child]
        assets := dinsert st.assets pend.child r.dl
        assetWrites := st.assetWrites ++ [pend.child]
        stlTf := dinsert st.stlTf pend.child r.stl_to_link_tf }

/-- Run the gathered edge tasks under an explicit interleaving: each
schedule entry names the task that runs its next atomic segment; entries
naming a finished task or an out-of-range index do nothing. -/
def runSched (ctx : SynthCtx) (edges : List (String × String))
    (sched : List Nat) (tasks : List TaskState) (st : SynthState) :
    Option (List TaskState × SynthState) :=
  match sched with
  | [] => some (tasks, st)
  | i :: rest =>
    match edges.get? i, tasks.get? i with
    | some e, some t =>
      if t.pc = 0 then
        match processEdgeSeg1 ctx st e with
        | none => none
        | some (st', opend) =>
          let t' : TaskState :=
            match opend with
            | some pd => ⟨1, some pd⟩
            | none => ⟨2, none⟩
          runSched ctx edges rest (tasks.set i t') st'
      else if t.pc = 1 then
        match t.pend with
        | none => none
        | some pd =>
          match processEdgeSeg2 ctx st pd with
          | none => none
          | some st' => runSched ctx edges rest (tasks.set i ⟨2, none⟩) st'
      else runSched ctx edges rest tasks st
    | _, _ => runSched ctx edges rest tasks st

/-- The schedule in which the event loop happens to run every task to
completion in edge order, parents first whenever the edge list is
topologically sorted. -/
def seqSchedule (n : Nat) : List Nat :=
  (List.range n).flatMap fun i => [i, i]

/-- The input of _get_urdf_components_async: the directed tree, the root,
and the three dictionaries, plus the workspace id read off the assembly
document. -/
structure UrdfInput where
  edges : List (String × String)
  rootNode : String
  parts : List (String × Part)
  mates : List (String × MateFeatureData)
  relations : List (String × MateRelationFeatureData)
  wid : String

/-- The shared state after the root body is synthesized (urdf.py lines 336
to 342): the root link, asset and transform are written before any edge
task starts. -/
def rootState (colorDraw : String → Colors) (inp : UrdfInput)
    (rootPart : Part) : SynthState :=
  let r := get_robot_link colorDraw inp.rootNode rootPart inp.wid none
  { links := [(inp.rootNode, r.link)]
    joints := []
    assets := [(inp.rootNode, r.dl)]
    stlTf := [(inp.rootNode, r.stl_to_link_tf)]
    linkWrites := [inp.rootNode]
    jointWrites := []
    assetWrites := [inp.rootNode]
    warnings := [] }

/-- The read-only context of a run. -/
def mkCtx (sanitize : String → String) (colorDraw : String → Colors)
    (inp : UrdfInput) (tr : TopoResult) : SynthCtx :=
  ⟨sanitize, colorDraw, inp.parts, tr.topo, tr.topoRel, inp.wid⟩

/-- _get_urdf_components_async of urdf.py: orient the mates, synthesize the
root body, then run the per-edge tasks under the given interleaving. none
models an exception escaping the run (the source would raise out of
asyncio.run). -/
def runUrdf (sanitize : String → String) (colorDraw : String → Colors)
    (inp : UrdfInput) (sched : List Nat) : Option SynthState :=
  match get_topological_mates inp.edges inp.mates inp.relations with
  | none => none
  | some tr =>
    match dlookup inp.parts inp.rootNode with
    | none => none
    | some rootPart =>
      match runSched (mkCtx sanitize colorDraw inp tr) inp.edges sched
          (inp.edges.map fun _ => (⟨0, none⟩ : TaskState))
          (rootState colorDraw inp rootPart) with
      | none => none
      | some (_, st) => some st

/-! ## Derived write pools and color erasure (used by the claims about
write-once keys and determinism) -/

/-- The names of the auxiliary links get_robot_joint synthesizes: only a
BALL mate makes any, and both carry the parent name. -/
def auxLinkNames (parent : String) (mt : MATE_TYPE) : List String :=
  match mt with
  | .BALL => [parent ++ "-dummy-x", parent ++ "-dummy-y"]
  | _ => []

/-- The names of the joints get_robot_joint synthesizes, from the
sanitized mate name. -/
def jointNames (sanitize : String → String) (mate : MateFeatureData) :
    List String :=
  match mate.mateType with
  | .BALL => [sanitize mate.name ++ "-x", sanitize mate.name ++ "-y",
      sanitize mate.name ++ "-z"]
  | _ => [sanitize mate.name]

/-- Every link-map key a full run could write, in edge order: the root,
then per edge the auxiliary links followed by the child. -/
def potentialLinkWrites (inp : UrdfInput)
    (topo : List (String × MateFeatureData)) : List String :=
  inp.rootNode :: inp.edges.flatMap fun e =>
    ((dlookup topo (edgeKey e.1 e.2)).map fun mate =>
      auxLinkNames e.1 mate.mateType).getD [] ++ [e.2]

/-- Every joint-map key a full run could write, in edge order. -/
def potentialJointWrites (sanitize : String → String) (inp : UrdfInput)
    (topo : List (String × MateFeatureData)) : List String :=
  inp.edges.flatMap fun e =>
    ((dlookup topo (edgeKey e.1 e.2)).map fun mate =>
      jointNames sanitize mate).getD []

/-- Every asset-map key a full run could write: the root and the
children. -/
def potentialAssetWrites (inp : UrdfInput) : List String :=
  inp.rootNode :: inp.edges.map Prod.snd

/-- Overwrite the visual material color of a link with a fixed palette
member, leaving everything else alone. -/
def eraseLinkColor (l : Link) : Link :=
  { l with
    visual := l.visual.map fun v =>
      { v with material := { v.material with color := Colors.red } } }

/-- The synthesis state with every link color overwritten. -/
def eraseStateColors (st : SynthState) : SynthState :=
  { st with links := st.links.map fun kv => (kv.1, eraseLinkColor kv.2) }

/-! ## Concrete inputs for the witnesses and counterexamples -/

/-- An identity coordinate system. -/
def idCS : MatedCS := ⟨[1, 0, 0], [0, 1, 0], [0, 0, 1], [0, 0, 0]⟩

/-- A coordinate system translated by one along x. -/
def transCS : MatedCS := ⟨[1, 0, 0], [0, 1, 0], [0, 0, 1], [1, 0, 0]⟩

def entA : MatedEntity := ⟨["oA"], idCS, ⟨transCS⟩⟩

def entB : MatedEntity := ⟨["oB"], transCS, ⟨idCS⟩⟩

def mpEx : MassProperties :=
  ⟨[2], [1, 2, 3], [[1, 0, 0], [0, 1, 0], [0, 0, 1]]⟩

def partEx : Part := ⟨"d", "e", "pid", none, none, false, mpEx⟩

/-- A part flagged as a rigid sub-assembly. -/
def partRigid : Part := ⟨"d", "e", "pid", none, none, true, mpEx⟩

def mateFast : MateFeatureData := ⟨"mid1", [entA, entB], .FASTENED, "f1"⟩

def mateBall : MateFeatureData := ⟨"mid2", [entA, entB], .BALL, "b1"⟩

def mateRev : MateFeatureData := ⟨"mid3", [entA, entB], .REVOLUTE, "v1"⟩

/-- A relation whose driving mate id resolves to no mate. -/
def relLost : MateRelationFeatureData :=
  ⟨.GEAR, [⟨"ghost", []⟩, ⟨"mid3", []⟩], false, none, "g1"⟩

/-- A relation between the two mates of exC4, stored under the rogue
key. -/
def relC4 : MateRelationFeatureData :=
  ⟨.GEAR, [⟨"mid1", []⟩, ⟨"mid3", []⟩], false, none, "g2"⟩

/-- Claim C1 scenario: one edge, no mate under either key. -/
def exC1 : UrdfInput :=
  ⟨[("r", "a")], "r", [("r", partEx), ("a", partEx)], [], [], "w1"⟩

/-- Two BALL children of one parent: both edges synthesize auxiliary
bodies named r-dummy-x and r-dummy-y. -/
def exC7 : UrdfInput :=
  ⟨[("r", "a"), ("r", "b")], "r",
    [("r", partEx), ("a", partEx), ("b", partEx)],
    [("r-MATE-a", mateBall), ("r-MATE-b", ⟨"mid9", [entA, entB], .BALL, "b2"⟩)],
    [], "w1"⟩

/-- A single well-formed edge, used to compare two runs that differ only
in the random color source. -/
def exC8 : UrdfInput :=
  ⟨[("r", "a")], "r", [("r", partEx), ("a", partEx)],
    [("r-MATE-a", mateFast)], [], "w1"⟩

/-- A two-level chain with both mates present. -/
def exC9 : UrdfInput :=
  ⟨[("r", "a"), ("a", "b")], "r",
    [("r", partEx), ("a", partEx), ("b", partEx)],
    [("r-MATE-a", mateFast), ("a-MATE-b", ⟨"mid8", [entA, entB], .FASTENED, "f2"⟩)],
    [], "w1"⟩

/-- The interleaving in which the deeper task runs first: task 1 reads the
parent transform before task 0 has produced it. -/
def schedC9 : List Nat := [1, 0, 0, 1]

/-- One edge whose mate participates in a relation with an unresolvable
driving mate. -/
def exC5 : UrdfInput :=
  ⟨[("r", "a")], "r", [("r", partEx), ("a", partEx)],
    [("r-MATE-a", mateRev)], [("mid3", relLost)], "w1"⟩

/-- One edge whose mate is stored only under the reversed key, with a
relation stored under that same reversed key. -/
def exC4 : UrdfInput :=
  ⟨[("r", "a")], "r", [("r", partEx), ("a", partEx)],
    [("a-MATE-r", mateRev)], [("a-MATE-r", relC4)], "w1"⟩

/-- The link-map keys one edge task can write: the auxiliary ball links in
its first segment and the child in its second. -/
def linkBlock (topo : List (String × MateFeatureData))
    (edges : List (String × String)) (i : Nat) : List String :=
  ((edges.get? i).map fun e =>
    ((dlookup topo (edgeKey e.1 e.2)).map fun mate =>
      auxLinkNames e.1 mate.mateType).getD [] ++ [e.2]).getD []

/-- The joint-map keys one edge task can write. -/
def jointBlock (sanitize : String → String)
    (topo : List (String × MateFeatureData))
    (edges : List (String × String)) (i : Nat) : List String :=
  ((edges.get? i).map fun e =>
    ((dlookup topo (edgeKey e.1 e.2)).map fun mate =>
      jointNames sanitize mate).getD []).getD []

/-- The asset-map keys one edge task can write. -/
def assetBlock (edges : List (String × String)) (i : Nat) : List String :=
  ((edges.get? i).map fun e => [e.2]).getD []

/-- The link-map keys an edge task can still write, given its progress: a
not-started task can write its auxiliary links and then its child, a task
suspended at the mesh download can still write the pending child, and a
finished task writes nothing. -/
def linkRemT (topo : List (String × MateFeatureData))
    (oe : Option (String × String)) (t : TaskState) : List String :=
  match oe with
  | none => []
  | some e =>
    match t.pc, t.pend with
    | 0, _ => ((dlookup topo (edgeKey e.1 e.2)).map fun mate =>
        auxLinkNames e.1 mate.mateType).getD [] ++ [e.2]
    | 1, some pd => [pd.child]
    | _, _ => []

/-- The joint-map keys an edge task can still write: all its joints before
its first segment runs, nothing afterwards. -/
def jointRemT (sanitize : String → String)
    (topo : List (String × MateFeatureData))
    (oe : Option (String × String)) (t : TaskState) : List String :=
  match oe with
  | none => []
  | some e =>
    match t.pc with
    | 0 => ((dlookup topo (edgeKey e.1 e.2)).map fun mate =>
        jointNames sanitize mate).getD []
    | _ => []

/-- The asset-map keys an edge task can still write: its child, until the
second segment has run. -/
def assetRemT (oe : Option (String × String)) (t : TaskState) :
    List String :=
  match oe with
  | none => []
  | some e =>
    match t.pc, t.pend with
    | 0, _ => [e.2]
    | 1, some pd => [pd.child]
    | _, _ => []

/-- The total write capacity of the tasks from index k on, as a multiset
of keys. -/
def remSumFrom (f : Nat → TaskState → Multiset String) :
    Nat → List TaskState → Multiset String
  | _, [] => 0
  | k, t :: ts => f k t + remSumFrom f (k + 1) ts

/-- Shorthand for the mate and relation dictionaries. -/
abbrev MateDict : Type := List (String × MateFeatureData)

abbrev RelDict : Type := List (String × MateRelationFeatureData)

/-! ## Lemmas about the dictionary model -/

theorem dlookup_dinsert_self {α : Type} (m : List (String × α)) (k : String)
    (v : α) : dlookup (dinsert m k v) k = some v := by
  induction m with
  | nil => simp [dinsert, dlookup]
  | cons hd tl ih =>
    obtain ⟨k₁, v₁⟩ := hd
    by_cases h : k₁ = k
    · simp [dinsert, dlookup, h]
    · simp [dinsert, dlookup, h, ih]

theorem dlookup_dinsert_ne {α : Type} (m : List (String × α))
    {k k' : String} (v : α) (h : k ≠ k') :
    dlookup (dinsert m k v) k' = dlookup m k' := by
  induction m with
  | nil => simp [dinsert, dlookup, h]
  | cons hd tl ih =>
    obtain ⟨k₁, v₁⟩ := hd
    by_cases h₁ : k₁ = k
    · subst h₁
      simp [dinsert, dlookup, h]
    · simp [dinsert, dlookup, h₁, ih]

theorem dlookup_dupdate {α : Type} (m : List (String × α)) (k : String)
    (f : α → α) (k' : String) :
    dlookup (dupdate m k f) k' =
      if k = k' then (dlookup m k').map f else dlookup m k' := by
  induction m with
  | nil => simp [dupdate, dlookup]
  | cons hd tl ih =>
    obtain ⟨k₁, v₁⟩ := hd
    by_cases h₁ : k₁ = k
    · subst h₁
      by_cases h₂ : k₁ = k'
      · subst h₂
        simp [dupdate, dlookup]
      · simp [dupdate, dlookup, h₂, ih]
    · by_cases h₂ : k₁ = k'
      · subst h₂
        simp [dupdate, dlookup, h₁, Ne.symm h₁]
      · simp [dupdate, dlookup, h₁, h₂, ih]

theorem dlookup_dupdate_ne {α : Type} (m : List (String × α))
    {k k' : String} (f : α → α) (h : k ≠ k') :
    dlookup (dupdate m k f) k' = dlookup m k' := by
  simp [dlookup_dupdate, h]

theorem dlookup_dupdate_self {α : Type} (m : List (String × α))
    (k : String) (f : α → α) :
    dlookup (dupdate m k f) k = (dlookup m k).map f := by
  simp [dlookup_dupdate]

theorem dlookup_derase_ne {α : Type} (m : List (String × α))
    {k k' : String} (h : k ≠ k') :
    dlookup (derase m k) k' = dlookup m k' := by
  induction m with
  | nil => simp [derase, dlookup]
  | cons hd tl ih =>
    obtain ⟨k₁, v₁⟩ := hd
    by_cases h₁ : k₁ = k
    · subst h₁
      simp [derase, dlookup, h]
    · simp [derase, dlookup, h₁, ih]

theorem dlookup_ne_none_of_isSome {α : Type} {m : List (String × α)}
    {k : String} (h : (dlookup m k).isSome) : m ≠ [] := by
  intro hnil
  subst hnil
  simp [dlookup] at h

theorem dkeys_dupdate {α : Type} (m : List (String × α)) (k : String)
    (f : α → α) : (dupdate m k f).map Prod.fst = m.map Prod.fst := by
  induction m with
  | nil => simp [dupdate]
  | cons hd tl ih =>
    obtain ⟨k₁, v₁⟩ := hd
    by_cases h₁ : k₁ = k
    · simp [dupdate, h₁]
    · simp [dupdate, h₁, ih]

theorem dkeys_derase_sublist {α : Type} (m : List (String × α))
    (k : String) :
    List.Sublist ((derase m k).map Prod.fst) (m.map Prod.fst) := by
  induction m with
  | nil => simp [derase]
  | cons hd tl ih =>
    obtain ⟨k₁, v₁⟩ := hd
    by_cases h₁ : k₁ = k
    · simpa [derase, h₁] using List.sublist_cons_self k₁ (tl.map Prod.fst)
    · simpa [derase, h₁] using ih.cons₂ k₁

theorem dlookup_eq_none_of_not_mem {α : Type} {m : List (String × α)}
    {k : String} (h : k ∉ m.map Prod.fst) : dlookup m k = none := by
  induction m with
  | nil => simp [dlookup]
  | cons hd tl ih =>
    obtain ⟨k₁, v₁⟩ := hd
    simp only [List.map_cons, List.mem_cons] at h
    push_neg at h
    rw [dlookup, if_neg (fun hh => h.1 hh.symm)]
    exact ih h.2

theorem dlookup_derase_self {α : Type} (m : List (String × α))
    (k : String) (h : (m.map Prod.fst).Nodup) :
    dlookup (derase m k) k = none := by
  induction m with
  | nil => simp [derase, dlookup]
  | cons hd tl ih =>
    obtain ⟨k₁, v₁⟩ := hd
    simp only [List.map_cons, List.nodup_cons] at h
    by_cases h₁ : k₁ = k
    · subst h₁
      rw [derase, if_pos rfl]
      exact dlookup_eq_none_of_not_mem h.1
    · rw [derase, if_neg h₁, dlookup, if_neg h₁]
      exact ih h.2

theorem dkeys_dinsert {α : Type} (m : List (String × α)) (k : String)
    (v : α) :
    (dinsert m k v).map Prod.fst =
      if k ∈ m.map Prod.fst then m.map Prod.fst
      else m.map Prod.fst ++ [k] := by
  induction m with
  | nil => simp [dinsert]
  | cons hd tl ih =>
    obtain ⟨k₁, v₁⟩ := hd
    by_cases h₁ : k₁ = k
    · subst h₁
      simp [dinsert]
    · have hne : ¬k = k₁ := fun hh => h₁ hh.symm
      by_cases h₂ : k ∈ tl.map Prod.fst
      · simp [dinsert, h₁, ih, h₂, hne]
      · simp [dinsert, h₁, ih, h₂, hne]

theorem dkeys_dinsert_nodup {α : Type} (m : List (String × α)) (k : String)
    (v : α) (h : (m.map Prod.fst).Nodup) :
    ((dinsert m k v).map Prod.fst).Nodup := by
  rw [dkeys_dinsert]
  by_cases h₂ : k ∈ m.map Prod.fst
  · simpa [h₂] using h
  · rw [if_neg h₂]
    refine h.append (List.nodup_singleton k) ?hdisj
    intro x hx hx₂
    rw [List.mem_singleton] at hx₂
    subst hx₂
    exact h₂ hx

theorem dkeys_derase_nodup {α : Type} (m : List (String × α)) (k : String)
    (h : (m.map Prod.fst).Nodup) :
    ((derase m k).map Prod.fst).Nodup :=
  h.sublist (dkeys_derase_sublist m k)

theorem dlookup_map_value {α β : Type} (m : List (String × α))
    (g : α → β) (k : String) :
    dlookup (m.map fun kv => (kv.1, g kv.2)) k = (dlookup m k).map g := by
  induction m with
  | nil => simp [dlookup]
  | cons hd tl ih =>
    obtain ⟨k₁, v₁⟩ := hd
    by_cases h₁ : k₁ = k
    · simp [dlookup, h₁]
    · simp [dlookup, h₁, ih]

theorem dinsert_map_value {α β : Type} (m : List (String × α))
    (g : α → β) (k : String) (v : α) :
    (dinsert m k v).map (fun kv => (kv.1, g kv.2)) =
      dinsert (m.map fun kv => (kv.1, g kv.2)) k (g v) := by
  induction m with
  | nil => simp [dinsert]
  | cons hd tl ih =>
    obtain ⟨k₁, v₁⟩ := hd
    by_cases h₁ : k₁ = k
    · simp [dinsert, h₁]
    · simp [dinsert, h₁, ih]

/-! ## Lemmas about the loop of get_topological_mates -/

theorem gtmStep_rogue_eq (splits : List (List String))
    (edges0 : List (String × String)) (topo : MateDict) (rel : RelDict)
    (mates : MateDict) (p c : String) (m : MateFeatureData)
    (hcond : [c, p] ∈ splits ∧ [c, p] ∉ edgeSplits edges0)
    (hm : dlookup mates (edgeKey c p) = some m) :
    gtmStep splits edges0 topo rel mates (p, c) =
      some (dinsert topo (edgeKey p c) (revEntities m),
        (if rel ≠ [] ∧ (dlookup rel (edgeKey c p)).isSome then
          match dlookup rel (edgeKey c p) with
          | some r => derase (dinsert rel (edgeKey p c) r) (edgeKey c p)
          | none => rel
        else rel),
        dupdate mates (edgeKey c p) fun _ => revEntities m) := by
  simp only [gtmStep]
  rw [if_pos hcond, hm]

theorem gtmStep_rogue_none (splits : List (List String))
    (edges0 : List (String × String)) (topo : MateDict) (rel : RelDict)
    (mates : MateDict) (p c : String)
    (hcond : [c, p] ∈ splits ∧ [c, p] ∉ edgeSplits edges0)
    (hm : dlookup mates (edgeKey c p) = none) :
    gtmStep splits edges0 topo rel mates (p, c) = none := by
  simp only [gtmStep]
  rw [if_pos hcond, hm]

theorem gtmStep_straight_eq (splits : List (List String))
    (edges0 : List (String × String)) (topo : MateDict) (rel : RelDict)
    (mates : MateDict) (p c : String) (m : MateFeatureData)
    (hcond : ¬([c, p] ∈ splits ∧ [c, p] ∉ edgeSplits edges0))
    (hm : dlookup mates (edgeKey p c) = some m) :
    gtmStep splits edges0 topo rel mates (p, c) =
      some (dinsert topo (edgeKey p c) m, rel, mates) := by
  simp only [gtmStep]
  rw [if_neg hcond, hm]

theorem gtmStep_straight_none (splits : List (List String))
    (edges0 : List (String × String)) (topo : MateDict) (rel : RelDict)
    (mates : MateDict) (p c : String)
    (hcond : ¬([c, p] ∈ splits ∧ [c, p] ∉ edgeSplits edges0))
    (hm : dlookup mates (edgeKey p c) = none) :
    gtmStep splits edges0 topo rel mates (p, c) = none := by
  simp only [gtmStep]
  rw [if_neg hcond, hm]

theorem gtmStep_frame_topo {splits : List (List String)}
    {edges0 : List (String × String)} {topo t : MateDict} {rel r : RelDict}
    {mates ms : MateDict} {p c x : String}
    (hstep : gtmStep splits edges0 topo rel mates (p, c) = some (t, r, ms))
    (hx : edgeKey p c ≠ x) : dlookup t x = dlookup topo x := by
  by_cases hcond : [c, p] ∈ splits ∧ [c, p] ∉ edgeSplits edges0
  · cases hm : dlookup mates (edgeKey c p) with
    | none => rw [gtmStep_rogue_none _ _ _ _ _ _ _ hcond hm] at hstep; cases hstep
    | some m =>
      rw [gtmStep_rogue_eq _ _ _ _ _ _ _ m hcond hm] at hstep
      simp only [Option.some.injEq, Prod.mk.injEq] at hstep
      obtain ⟨h1, h2, h3⟩ := hstep
      subst h1
      exact dlookup_dinsert_ne topo _ hx
  · cases hm : dlookup mates (edgeKey p c) with
    | none => rw [gtmStep_straight_none _ _ _ _ _ _ _ hcond hm] at hstep; cases hstep
    | some m =>
      rw [gtmStep_straight_eq _ _ _ _ _ _ _ m hcond hm] at hstep
      simp only [Option.some.injEq, Prod.mk.injEq] at hstep
      obtain ⟨h1, h2, h3⟩ := hstep
      subst h1
      exact dlookup_dinsert_ne topo _ hx

theorem gtmStep_frame_rel {splits : List (List String)}
    {edges0 : List (String × String)} {topo t : MateDict} {rel r : RelDict}
    {mates ms : MateDict} {p c x : String}
    (hstep : gtmStep splits edges0 topo rel mates (p, c) = some (t, r, ms))
    (hxK : edgeKey p c ≠ x) (hxR : edgeKey c p ≠ x) :
    dlookup r x = dlookup rel x := by
  by_cases hcond : [c, p] ∈ splits ∧ [c, p] ∉ edgeSplits edges0
  · cases hm : dlookup mates (edgeKey c p) with
    | none => rw [gtmStep_rogue_none _ _ _ _ _ _ _ hcond hm] at hstep; cases hstep
    | some m =>
      rw [gtmStep_rogue_eq _ _ _ _ _ _ _ m hcond hm] at hstep
      simp only [Option.some.injEq, Prod.mk.injEq] at hstep
      obtain ⟨h1, h2, h3⟩ := hstep
      subst h2
      by_cases hb : rel ≠ [] ∧ (dlookup rel (edgeKey c p)).isSome
      · rw [if_pos hb]
        cases hr : dlookup rel (edgeKey c p) with
        | none => rfl
        | some rr =>
          rw [dlookup_derase_ne _ hxR, dlookup_dinsert_ne rel _ hxK]
      · rw [if_neg hb]
  · cases hm : dlookup mates (edgeKey p c) with
    | none => rw [gtmStep_straight_none _ _ _ _ _ _ _ hcond hm] at hstep; cases hstep
    | some m =>
      rw [gtmStep_straight_eq _ _ _ _ _ _ _ m hcond hm] at hstep
      simp only [Option.some.injEq, Prod.mk.injEq] at hstep
      obtain ⟨h1, h2, h3⟩ := hstep
      rw [h2]

theorem gtmStep_frame_mates {splits : List (List String)}
    {edges0 : List (String × String)} {topo t : MateDict} {rel r : RelDict}
    {mates ms : MateDict} {p c x : String}
    (hstep : gtmStep splits edges0 topo rel mates (p, c) = some (t, r, ms))
    (hxR : edgeKey c p ≠ x) : dlookup ms x = dlookup mates x := by
  by_cases hcond : [c, p] ∈ splits ∧ [c, p] ∉ edgeSplits edges0
  · cases hm : dlookup mates (edgeKey c p) with
    | none => rw [gtmStep_rogue_none _ _ _ _ _ _ _ hcond hm] at hstep; cases hstep
    | some m =>
      rw [gtmStep_rogue_eq _ _ _ _ _ _ _ m hcond hm] at hstep
      simp only [Option.some.injEq, Prod.mk.injEq] at hstep
      obtain ⟨h1, h2, h3⟩ := hstep
      subst h3
      exact dlookup_dupdate_ne mates _ hxR
  · cases hm : dlookup mates (edgeKey p c) with
    | none => rw [gtmStep_straight_none _ _ _ _ _ _ _ hcond hm] at hstep; cases hstep
    | some m =>
      rw [gtmStep_straight_eq _ _ _ _ _ _ _ m hcond hm] at hstep
      simp only [Option.some.injEq, Prod.mk.injEq] at hstep
      obtain ⟨h1, h2, h3⟩ := hstep
      rw [h3]

theorem gtmStep_mates_none {splits : List (List String)}
    {edges0 : List (String × String)} {topo t : MateDict} {rel r : RelDict}
    {mates ms : MateDict} {p c x : String}
    (hstep : gtmStep splits edges0 topo rel mates (p, c) = some (t, r, ms))
    (hx : dlookup mates x = none) : dlookup ms x = none := by
  by_cases hcond : [c, p] ∈ splits ∧ [c, p] ∉ edgeSplits edges0
  · cases hm : dlookup mates (edgeKey c p) with
    | none => rw [gtmStep_rogue_none _ _ _ _ _ _ _ hcond hm] at hstep; cases hstep
    | some m =>
      rw [gtmStep_rogue_eq _ _ _ _ _ _ _ m hcond hm] at hstep
      simp only [Option.some.injEq, Prod.mk.injEq] at hstep
      obtain ⟨h1, h2, h3⟩ := hstep
      subst h3
      rw [dlookup_dupdate]
      by_cases hk : edgeKey c p = x
      · rw [if_pos hk, hx]
        rfl
      · rw [if_neg hk, hx]
  · cases hm : dlookup mates (edgeKey p c) with
    | none => rw [gtmStep_straight_none _ _ _ _ _ _ _ hcond hm] at hstep; cases hstep
    | some m =>
      rw [gtmStep_straight_eq _ _ _ _ _ _ _ m hcond hm] at hstep
      simp only [Option.some.injEq, Prod.mk.injEq] at hstep
      obtain ⟨h1, h2, h3⟩ := hstep
      rw [← h3]
      exact hx

theorem gtmStep_rel_nodup {splits : List (List String)}
    {edges0 : List (String × String)} {topo t : MateDict} {rel r : RelDict}
    {mates ms : MateDict} {p c : String}
    (hstep : gtmStep splits edges0 topo rel mates (p, c) = some (t, r, ms))
    (h : (rel.map Prod.fst).Nodup) : (r.map Prod.fst).Nodup := by
  by_cases hcond : [c, p] ∈ splits ∧ [c, p] ∉ edgeSplits edges0
  · cases hm : dlookup mates (edgeKey c p) with
    | none => rw [gtmStep_rogue_none _ _ _ _ _ _ _ hcond hm] at hstep; cases hstep
    | some m =>
      rw [gtmStep_rogue_eq _ _ _ _ _ _ _ m hcond hm] at hstep
      simp only [Option.some.injEq, Prod.mk.injEq] at hstep
      obtain ⟨h1, h2, h3⟩ := hstep
      subst h2
      by_cases hb : rel ≠ [] ∧ (dlookup rel (edgeKey c p)).isSome
      · rw [if_pos hb]
        cases hr : dlookup rel (edgeKey c p) with
        | none => exact h
        | some rr => exact dkeys_derase_nodup _ _ (dkeys_dinsert_nodup rel _ rr h)
      · rw [if_neg hb]
        exact h
  · cases hm : dlookup mates (edgeKey p c) with
    | none => rw [gtmStep_straight_none _ _ _ _ _ _ _ hcond hm] at hstep; cases hstep
    | some m =>
      rw [gtmStep_straight_eq _ _ _ _ _ _ _ m hcond hm] at hstep
      simp only [Option.some.injEq, Prod.mk.injEq] at hstep
      obtain ⟨h1, h2, h3⟩ := hstep
      rw [← h2]
      exact h

theorem gtmStep_mates_keys {splits : List (List String)}
    {edges0 : List (String × String)} {topo t : MateDict} {rel r : RelDict}
    {mates ms : MateDict} {p c : String}
    (hstep : gtmStep splits edges0 topo rel mates (p, c) = some (t, r, ms)) :
    ms.map Prod.fst = mates.map Prod.fst := by
  by_cases hcond : [c, p] ∈ splits ∧ [c, p] ∉ edgeSplits edges0
  · cases hm : dlookup mates (edgeKey c p) with
    | none => rw [gtmStep_rogue_none _ _ _ _ _ _ _ hcond hm] at hstep; cases hstep
    | some m =>
      rw [gtmStep_rogue_eq _ _ _ _ _ _ _ m hcond hm] at hstep
      simp only [Option.some.injEq, Prod.mk.injEq] at hstep
      obtain ⟨h1, h2, h3⟩ := hstep
      subst h3
      exact dkeys_dupdate mates _ _
  · cases hm : dlookup mates (edgeKey p c) with
    | none => rw [gtmStep_straight_none _ _ _ _ _ _ _ hcond hm] at hstep; cases hstep
    | some m =>
      rw [gtmStep_straight_eq _ _ _ _ _ _ _ m hcond hm] at hstep
      simp only [Option.some.injEq, Prod.mk.injEq] at hstep
      obtain ⟨h1, h2, h3⟩ := hstep
      rw [h3]

theorem gtmGo_frame_topo {splits : List (List String)}
    {edges0 : List (String × String)} {x : String} :
    ∀ (edges : List (String × String)) (topo : MateDict) (rel : RelDict)
      (mates : MateDict) (t : MateDict) (r : RelDict) (ms : MateDict),
      (∀ e ∈ edges, edgeKey e.1 e.2 ≠ x) →
      gtmGo splits edges0 edges topo rel mates = some (t, r, ms) →
      dlookup t x = dlookup topo x := by
  intro edges
  induction edges with
  | nil =>
    intro topo rel mates t r ms _ hgo
    simp only [gtmGo, Option.some.injEq, Prod.mk.injEq] at hgo
    rw [← hgo.1]
  | cons e rest ih =>
    intro topo rel mates t r ms hkeys hgo
    obtain ⟨p, c⟩ := e
    rw [gtmGo] at hgo
    cases hstep : gtmStep splits edges0 topo rel mates (p, c) with
    | none => rw [hstep] at hgo; cases hgo
    | some st =>
      obtain ⟨t₁, r₁, ms₁⟩ := st
      rw [hstep] at hgo
      have hrec := ih t₁ r₁ ms₁ t r ms
        (fun e he => hkeys e (List.mem_cons_of_mem _ he)) hgo
      rw [hrec]
      exact gtmStep_frame_topo hstep (hkeys (p, c) (List.mem_cons_self _ _))

theorem gtmGo_frame_rel {splits : List (List String)}
    {edges0 : List (String × String)} {x : String} :
    ∀ (edges : List (String × String)) (topo : MateDict) (rel : RelDict)
      (mates : MateDict) (t : MateDict) (r : RelDict) (ms : MateDict),
      (∀ e ∈ edges, edgeKey e.1 e.2 ≠ x ∧ edgeKey e.2 e.1 ≠ x) →
      gtmGo splits edges0 edges topo rel mates = some (t, r, ms) →
      dlookup r x = dlookup rel x := by
  intro edges
  induction edges with
  | nil =>
    intro topo rel mates t r ms _ hgo
    simp only [gtmGo, Option.some.injEq, Prod.mk.injEq] at hgo
    rw [← hgo.2.1]
  | cons e rest ih =>
    intro topo rel mates t r ms hkeys hgo
    obtain ⟨p, c⟩ := e
    rw [gtmGo] at hgo
    cases hstep : gtmStep splits edges0 topo rel mates (p, c) with
    | none => rw [hstep] at hgo; cases hgo
    | some st =>
      obtain ⟨t₁, r₁, ms₁⟩ := st
      rw [hstep] at hgo
      have hrec := ih t₁ r₁ ms₁ t r ms
        (fun e he => hkeys e (List.mem_cons_of_mem _ he)) hgo
      rw [hrec]
      exact gtmStep_frame_rel hstep (hkeys (p, c) (List.mem_cons_self _ _)).1
        (hkeys (p, c) (List.mem_cons_self _ _)).2

theorem gtmGo_frame_mates {splits : List (List String)}
    {edges0 : List (String × String)} {x : String} :
    ∀ (edges : List (String × String)) (topo : MateDict) (rel : RelDict)
      (mates : MateDict) (t : MateDict) (r : RelDict) (ms : MateDict),
      (∀ e ∈ edges, edgeKey e.2 e.1 ≠ x) →
      gtmGo splits edges0 edges topo rel mates = some (t, r, ms) →
      dlookup ms x = dlookup mates x := by
  intro edges
  induction edges with
  | nil =>
    intro topo rel mates t r ms _ hgo
    simp only [gtmGo, Option.some.injEq, Prod.mk.injEq] at hgo
    rw [← hgo.2.2]
  | cons e rest ih =>
    intro topo rel mates t r ms hkeys hgo
    obtain ⟨p, c⟩ := e
    rw [gtmGo] at hgo
    cases hstep : gtmStep splits edges0 topo rel mates (p, c) with
    | none => rw [hstep] at hgo; cases hgo
    | some st =>
      obtain ⟨t₁, r₁, ms₁⟩ := st
      rw [hstep] at hgo
      have hrec := ih t₁ r₁ ms₁ t r ms
        (fun e he => hkeys e (List.mem_cons_of_mem _ he)) hgo
      rw [hrec]
      exact gtmStep_frame_mates hstep (hkeys (p, c) (List.mem_cons_self _ _))

theorem gtmGo_mates_keys {splits : List (List String)}
    {edges0 : List (String × String)} :
    ∀ (edges : List (String × String)) (topo : MateDict) (rel : RelDict)
      (mates : MateDict) (t : MateDict) (r : RelDict) (ms : MateDict),
      gtmGo splits edges0 edges topo rel mates = some (t, r, ms) →
      ms.map Prod.fst = mates.map Prod.fst := by
  intro edges
  induction edges with
  | nil =>
    intro topo rel mates t r ms hgo
    simp only [gtmGo, Option.some.injEq, Prod.mk.injEq] at hgo
    rw [← hgo.2.2]
  | cons e rest ih =>
    intro topo rel mates t r ms hgo
    obtain ⟨p, c⟩ := e
    rw [gtmGo] at hgo
    cases hstep : gtmStep splits edges0 topo rel mates (p, c) with
    | none => rw [hstep] at hgo; cases hgo
    | some st =>
      obtain ⟨t₁, r₁, ms₁⟩ := st
      rw [hstep] at hgo
      rw [ih t₁ r₁ ms₁ t r ms hgo]
      exact gtmStep_mates_keys hstep

theorem gtmGo_none_of_missing {splits : List (List String)}
    {edges0 : List (String × String)} {p c : String} :
    ∀ (edges : List (String × String)) (topo : MateDict) (rel : RelDict)
      (mates : MateDict),
      (p, c) ∈ edges →
      dlookup mates (edgeKey p c) = none →
      dlookup mates (edgeKey c p) = none →
      gtmGo splits edges0 edges topo rel mates = none := by
  intro edges
  induction edges with
  | nil =>
    intro topo rel mates hmem
    cases hmem
  | cons e rest ih =>
    intro topo rel mates hmem hK hR
    by_cases he : e = (p, c)
    · subst he
      have hstep : gtmStep splits edges0 topo rel mates (p, c) = none := by
        by_cases hcond : [c, p] ∈ splits ∧ [c, p] ∉ edgeSplits edges0
        · exact gtmStep_rogue_none _ _ _ _ _ _ _ hcond hR
        · exact gtmStep_straight_none _ _ _ _ _ _ _ hcond hK
      rw [gtmGo, hstep]
    · have hmem₂ : (p, c) ∈ rest := by
        rcases List.mem_cons.mp hmem with h1 | h1
        · exact absurd h1.symm he
        · exact h1
      obtain ⟨p₁, c₁⟩ := e
      rw [gtmGo]
      cases hstep : gtmStep splits edges0 topo rel mates (p₁, c₁) with
      | none => rfl
      | some st =>
        obtain ⟨t₁, r₁, ms₁⟩ := st
        exact ih t₁ r₁ ms₁ hmem₂ (gtmStep_mates_none hstep hK)
          (gtmStep_mates_none hstep hR)

theorem gtmGo_rogue_main {splits : List (List String)}
    {edges0 : List (String × String)} {p c : String} {m : MateFeatureData}
    (hsp : [c, p] ∈ splits) (hne : [c, p] ∉ edgeSplits edges0) :
    ∀ (edges : List (String × String)) (topo : MateDict) (rel : RelDict)
      (mates : MateDict) (t : MateDict) (r : RelDict) (ms : MateDict),
      (p, c) ∈ edges → edges.Nodup →
      (∀ e ∈ edges, e ≠ (p, c) →
        edgeKey e.1 e.2 ≠ edgeKey p c ∧ edgeKey e.2 e.1 ≠ edgeKey c p) →
      dlookup mates (edgeKey c p) = some m →
      gtmGo splits edges0 edges topo rel mates = some (t, r, ms) →
      dlookup t (edgeKey p c) = some (revEntities m) ∧
      dlookup ms (edgeKey c p) = some (revEntities m) := by
  intro edges
  induction edges with
  | nil =>
    intro topo rel mates t r ms hmem
    cases hmem
  | cons e rest ih =>
    intro topo rel mates t r ms hmem hnd hsep hm hgo
    by_cases he : e = (p, c)
    · subst he
      rw [gtmGo, gtmStep_rogue_eq _ _ _ _ _ _ _ m ⟨hsp, hne⟩ hm] at hgo
      have hrest : ∀ e ∈ rest, e ≠ (p, c) := by
        intro e hmem₂ heq
        subst heq
        exact (List.nodup_cons.mp hnd).1 hmem₂
      constructor
      · rw [gtmGo_frame_topo rest _ _ _ t r ms
          (fun e hmem₂ => (hsep e (List.mem_cons_of_mem _ hmem₂) (hrest e hmem₂)).1)
          hgo]
        exact dlookup_dinsert_self topo _ _
      · rw [gtmGo_frame_mates rest _ _ _ t r ms
          (fun e hmem₂ => (hsep e (List.mem_cons_of_mem _ hmem₂) (hrest e hmem₂)).2)
          hgo]
        rw [dlookup_dupdate_self, hm]
        rfl
    · have hmem₂ : (p, c) ∈ rest := by
        rcases List.mem_cons.mp hmem with h1 | h1
        · exact absurd h1.symm he
        · exact h1
      obtain ⟨p₁, c₁⟩ := e
      rw [gtmGo] at hgo
      cases hstep : gtmStep splits edges0 topo rel mates (p₁, c₁) with
      | none => rw [hstep] at hgo; cases hgo
      | some st =>
        obtain ⟨t₁, r₁, ms₁⟩ := st
        rw [hstep] at hgo
        have hm₁ : dlookup ms₁ (edgeKey c p) = some m := by
          rw [gtmStep_frame_mates hstep
            (hsep (p₁, c₁) (List.mem_cons_self _ _) he).2]
          exact hm
        exact ih t₁ r₁ ms₁ t r ms hmem₂ (List.nodup_cons.mp hnd).2
          (fun e hmem₃ => hsep e (List.mem_cons_of_mem _ hmem₃)) hm₁ hgo

theorem gtmGo_straight_main {splits : List (List String)}
    {edges0 : List (String × String)} {p c : String} {m : MateFeatureData}
    (hnc : ¬([c, p] ∈ splits ∧ [c, p] ∉ edgeSplits edges0)) :
    ∀ (edges : List (String × String)) (topo : MateDict) (rel : RelDict)
      (mates : MateDict) (t : MateDict) (r : RelDict) (ms : MateDict),
      (p, c) ∈ edges → edges.Nodup →
      (∀ e ∈ edges, e ≠ (p, c) →
        edgeKey e.1 e.2 ≠ edgeKey p c ∧ edgeKey e.2 e.1 ≠ edgeKey p c) →
      dlookup mates (edgeKey p c) = some m →
      gtmGo splits edges0 edges topo rel mates = some (t, r, ms) →
      dlookup t (edgeKey p c) = some m := by
  intro edges
  induction edges with
  | nil =>
    intro topo rel mates t r ms hmem
    cases hmem
  | cons e rest ih =>
    intro topo rel mates t r ms hmem hnd hsep hm hgo
    by_cases he : e = (p, c)
    · subst he
      rw [gtmGo, gtmStep_straight_eq _ _ _ _ _ _ _ m hnc hm] at hgo
      have hrest : ∀ e ∈ rest, e ≠ (p, c) := by
        intro e hmem₂ heq
        subst heq
        exact (List.nodup_cons.mp hnd).1 hmem₂
      rw [gtmGo_frame_topo rest _ _ _ t r ms
        (fun e hmem₂ => (hsep e (List.mem_cons_of_mem _ hmem₂) (hrest e hmem₂)).1)
        hgo]
      exact dlookup_dinsert_self topo _ _
    · have hmem₂ : (p, c) ∈ rest := by
        rcases List.mem_cons.mp hmem with h1 | h1
        · exact absurd h1.symm he
        · exact h1
      obtain ⟨p₁, c₁⟩ := e
      rw [gtmGo] at hgo
      cases hstep : gtmStep splits edges0 topo rel mates (p₁, c₁) with
      | none => rw [hstep] at hgo; cases hgo
      | some st =>
        obtain ⟨t₁, r₁, ms₁⟩ := st
        rw [hstep] at hgo
        have hm₁ : dlookup ms₁ (edgeKey p c) = some m := by
          rw [gtmStep_frame_mates hstep
            (hsep (p₁, c₁) (List.mem_cons_self _ _) he).2]
          exact hm
        exact ih t₁ r₁ ms₁ t r ms hmem₂ (List.nodup_cons.mp hnd).2
          (fun e hmem₃ => hsep e (List.mem_cons_of_mem _ hmem₃)) hm₁ hgo

theorem gtmGo_rogue_rel_main {splits : List (List String)}
    {edges0 : List (String × String)} {p c : String} {m : MateFeatureData}
    {rr : MateRelationFeatureData}
    (hsp : [c, p] ∈ splits) (hne : [c, p] ∉ edgeSplits edges0)
    (hKR : edgeKey p c ≠ edgeKey c p) :
    ∀ (edges : List (String × String)) (topo : MateDict) (rel : RelDict)
      (mates : MateDict) (t : MateDict) (r : RelDict) (ms : MateDict),
      (p, c) ∈ edges → edges.Nodup →
      (∀ e ∈ edges, e ≠ (p, c) →
        edgeKey e.1 e.2 ≠ edgeKey p c ∧ edgeKey e.1 e.2 ≠ edgeKey c p ∧
        edgeKey e.2 e.1 ≠ edgeKey p c ∧ edgeKey e.2 e.1 ≠ edgeKey c p) →
      dlookup mates (edgeKey c p) = some m →
      dlookup rel (edgeKey c p) = some rr →
      (rel.map Prod.fst).Nodup →
      gtmGo splits edges0 edges topo rel mates = some (t, r, ms) →
      dlookup r (edgeKey p c) = some rr ∧
      dlookup r (edgeKey c p) = none := by
  intro edges
  induction edges with
  | nil =>
    intro topo rel mates t r ms hmem
    cases hmem
  | cons e rest ih =>
    intro topo rel mates t r ms hmem hnd hsep hm hr hrnd hgo
    by_cases he : e = (p, c)
    · subst he
      have hne₂ : rel ≠ [] := dlookup_ne_none_of_isSome (by rw [hr]; rfl)
      have hstep_eq : gtmStep splits edges0 topo rel mates (p, c) =
          some (dinsert topo (edgeKey p c) (revEntities m),
            derase (dinsert rel (edgeKey p c) rr) (edgeKey c p),
            dupdate mates (edgeKey c p) fun _ => revEntities m) := by
        rw [gtmStep_rogue_eq _ _ _ _ _ _ _ m ⟨hsp, hne⟩ hm, hr]
        rw [if_pos ⟨hne₂, rfl⟩]
      rw [gtmGo, hstep_eq] at hgo
      have hrest : ∀ e ∈ rest, e ≠ (p, c) := by
        intro e hmem₂ heq
        subst heq
        exact (List.nodup_cons.mp hnd).1 hmem₂
      have hframe := gtmGo_frame_rel rest _ _ _ t r ms
        (x := edgeKey p c)
        (fun e hmem₂ =>
          ⟨(hsep e (List.mem_cons_of_mem _ hmem₂) (hrest e hmem₂)).1,
           (hsep e (List.mem_cons_of_mem _ hmem₂) (hrest e hmem₂)).2.2.1⟩)
        hgo
      have hframe₂ := gtmGo_frame_rel rest _ _ _ t r ms
        (x := edgeKey c p)
        (fun e hmem₂ =>
          ⟨(hsep e (List.mem_cons_of_mem _ hmem₂) (hrest e hmem₂)).2.1,
           (hsep e (List.mem_cons_of_mem _ hmem₂) (hrest e hmem₂)).2.2.2⟩)
        hgo
      constructor
      · rw [hframe, dlookup_derase_ne _ (Ne.symm hKR), dlookup_dinsert_self]
      · rw [hframe₂]
        exact dlookup_derase_self _ _ (dkeys_dinsert_nodup rel _ rr hrnd)
    · have hmem₂ : (p, c) ∈ rest := by
        rcases List.mem_cons.mp hmem with h1 | h1
        · exact absurd h1.symm he
        · exact h1
      obtain ⟨p₁, c₁⟩ := e
      rw [gtmGo] at hgo
      cases hstep : gtmStep splits edges0 topo rel mates (p₁, c₁) with
      | none => rw [hstep] at hgo; cases hgo
      | some st =>
        obtain ⟨t₁, r₁, ms₁⟩ := st
        rw [hstep] at hgo
        have hsep₁ := hsep (p₁, c₁) (List.mem_cons_self _ _) he
        have hm₁ : dlookup ms₁ (edgeKey c p) = some m := by
          rw [gtmStep_frame_mates hstep hsep₁.2.2.2]
          exact hm
        have hr₁ : dlookup r₁ (edgeKey c p) = some rr := by
          rw [gtmStep_frame_rel hstep hsep₁.2.1 hsep₁.2.2.2]
          exact hr
        exact ih t₁ r₁ ms₁ t r ms hmem₂ (List.nodup_cons.mp hnd).2
          (fun e hmem₃ => hsep e (List.mem_cons_of_mem _ hmem₃)) hm₁ hr₁
          (gtmStep_rel_nodup hstep hrnd) hgo

/-- Unfolding get_topological_mates: a successful call is a successful run
of the loop, and the returned relation table is also the post-state of the
caller relations dictionary. -/
theorem get_topological_mates_some {edges : List (String × String)}
    {mates : MateDict} {relations : RelDict} {res : TopoResult}
    (hres : get_topological_mates edges mates relations = some res) :
    gtmGo (mateKeySplits mates) edges edges [] relations mates =
      some (res.topo, res.topoRel, res.matesPost) ∧
    res.relationsPost = res.topoRel := by
  simp only [get_topological_mates] at hres
  cases hgo : gtmGo (mateKeySplits mates) edges edges [] relations mates with
  | none => rw [hgo] at hres; cases hres
  | some st =>
    obtain ⟨t, r, ms⟩ := st
    rw [hgo] at hres
    simp only [Option.some.injEq] at hres
    subst hres
    exact ⟨rfl, rfl⟩

/-- C3: for a tree edge (p, c) whose mate is stored only under the
reversed key, the mate returned under the canonical key has its
matedEntities reversed, so entity index 0 is the parent side; a mate
already stored under the canonical key, with no reversed entry, is
returned unchanged. The separation hypotheses say that no other edge of
the tree clashes with either key of this edge. -/
theorem C3_topological_mates_orientation
    (edges : List (String × String)) (mates : MateDict)
    (relations : RelDict) (p c : String) (res : TopoResult)
    (hres : get_topological_mates edges mates relations = some res)
    (hmem : (p, c) ∈ edges) (hnd : edges.Nodup) :
    (∀ m : MateFeatureData,
      dlookup mates (edgeKey c p) = some m →
      [c, p] ∈ mateKeySplits mates →
      [c, p] ∉ edgeSplits edges →
      (∀ e ∈ edges, e ≠ (p, c) →
        edgeKey e.1 e.2 ≠ edgeKey p c ∧ edgeKey e.2 e.1 ≠ edgeKey c p) →
      dlookup res.topo (edgeKey p c) = some (revEntities m) ∧
      (revEntities m).matedEntities = m.matedEntities.reverse) ∧
    (∀ m : MateFeatureData,
      dlookup mates (edgeKey p c) = some m →
      [c, p] ∉ mateKeySplits mates →
      (∀ e ∈ edges, e ≠ (p, c) →
        edgeKey e.1 e.2 ≠ edgeKey p c ∧ edgeKey e.2 e.1 ≠ edgeKey p c) →
      dlookup res.topo (edgeKey p c) = some m) := by
  obtain ⟨hgo, _⟩ := get_topological_mates_some hres
  constructor
  · intro m hm hsp hne hsep
    refine ⟨(gtmGo_rogue_main hsp hne edges _ _ _ _ _ _ hmem hnd hsep hm hgo).1, rfl⟩
  · intro m hm hsp hsep
    have hnc : ¬([c, p] ∈ mateKeySplits mates ∧ [c, p] ∉ edgeSplits edges) :=
      fun hh => hsp hh.1
    exact gtmGo_straight_main hnc edges _ _ _ _ _ _ hmem hnd hsep hm hgo

/-- Witness for C3 at a concrete input: a single edge (r, a) whose mate is
stored under a-MATE-r comes back reversed, and a mate stored under
r-MATE-a comes back unchanged. -/
theorem C3_topological_mates_orientation_witness :
    (∃ res, get_topological_mates [("r", "a")] [("a-MATE-r", mateRev)] [] =
        some res ∧
      dlookup res.topo (edgeKey "r" "a") = some (revEntities mateRev)) ∧
    (∃ res, get_topological_mates [("r", "a")] [("r-MATE-a", mateRev)] [] =
        some res ∧
      dlookup res.topo (edgeKey "r" "a") = some mateRev) := by
  constructor
  · cases hres : get_topological_mates [("r", "a")] [("a-MATE-r", mateRev)] [] with
    | none =>
      have : (get_topological_mates [("r", "a")] [("a-MATE-r", mateRev)] []).isSome =
          true := by decide
      rw [hres] at this
      cases this
    | some res =>
      exact ⟨res, rfl,
        ((C3_topological_mates_orientation _ _ _ "r" "a" res hres (by decide)
          (by decide)).1 mateRev (by decide) (by decide) (by decide)
          (by decide)).1⟩
  · cases hres : get_topological_mates [("r", "a")] [("r-MATE-a", mateRev)] [] with
    | none =>
      have : (get_topological_mates [("r", "a")] [("r-MATE-a", mateRev)] []).isSome =
          true := by decide
      rw [hres] at this
      cases this
    | some res =>
      exact ⟨res, rfl,
        (C3_topological_mates_orientation _ _ _ "r" "a" res hres (by decide)
          (by decide)).2 mateRev (by decide) (by decide) (by decide)⟩

/-- C1 (amended): when the mate of a tree edge is absent under both the
canonical and the reversed key, get_topological_mates raises KeyError at
the canonical lookup, so it returns nothing and the whole synthesis run
aborts; no partial body map is produced. -/
theorem C1_missing_mate_raises (sanitize : String → String)
    (colorDraw : String → Colors) (inp : UrdfInput) (sched : List Nat)
    (p c : String) (hmem : (p, c) ∈ inp.edges)
    (hK : dlookup inp.mates (edgeKey p c) = none)
    (hR : dlookup inp.mates (edgeKey c p) = none) :
    get_topological_mates inp.edges inp.mates inp.relations = none ∧
    runUrdf sanitize colorDraw inp sched = none := by
  have hgtm : get_topological_mates inp.edges inp.mates inp.relations = none := by
    simp only [get_topological_mates]
    rw [gtmGo_none_of_missing inp.edges [] inp.relations inp.mates hmem hK hR]
  refine ⟨hgtm, ?hrun⟩
  unfold runUrdf
  rw [hgtm]

/-- Witness for C1 (amended) at the concrete scenario input. -/
theorem C1_missing_mate_raises_witness :
    get_topological_mates exC1.edges exC1.mates exC1.relations = none ∧
    runUrdf id (fun _ => Colors.red) exC1 (seqSchedule 1) = none :=
  C1_missing_mate_raises id (fun _ => Colors.red) exC1 (seqSchedule 1) "r" "a"
    (by decide) (by decide) (by decide)

/-- Counterexample to C1 as stated: on the scenario input (one edge whose
mate is absent under both keys) the run does not skip the edge and return
a body map holding the root; it aborts with a KeyError, modelled as none,
so no output state exists at all. -/
theorem C1_counterexample :
    ¬ ∃ st : SynthState,
        runUrdf id (fun _ => Colors.red) exC1 (seqSchedule 1) = some st ∧
        dlookup st.links exC1.rootNode ≠ none ∧
        dlookup st.links "a" = none := by
  intro hex
  obtain ⟨st, hst, _, _⟩ := hex
  have h2 : (runUrdf id (fun _ => Colors.red) exC1 (seqSchedule 1)).isSome =
      false := by decide
  rw [hst] at h2
  cases h2

/-- C4: a rogue mate that also participates in a relation has the relation
moved from the reversed key to the canonical key in the same loop
iteration (the stale entry is removed), the reversal leaves the mate id
unchanged, and the rewrite does not disturb the relation table under any
other key, in particular not under the id the orchestrator later uses for
the mimic lookup. -/
theorem C4_relation_rewrite
    (edges : List (String × String)) (mates : MateDict) (relations : RelDict)
    (p c : String) (m : MateFeatureData) (rr : MateRelationFeatureData)
    (res : TopoResult)
    (hres : get_topological_mates edges mates relations = some res)
    (hmem : (p, c) ∈ edges) (hnd : edges.Nodup)
    (hsp : [c, p] ∈ mateKeySplits mates)
    (hne : [c, p] ∉ edgeSplits edges)
    (hm : dlookup mates (edgeKey c p) = some m)
    (hr : dlookup relations (edgeKey c p) = some rr)
    (hrnd : (relations.map Prod.fst).Nodup)
    (hKR : edgeKey p c ≠ edgeKey c p)
    (hsep : ∀ e ∈ edges, e ≠ (p, c) →
      edgeKey e.1 e.2 ≠ edgeKey p c ∧ edgeKey e.1 e.2 ≠ edgeKey c p ∧
      edgeKey e.2 e.1 ≠ edgeKey p c ∧ edgeKey e.2 e.1 ≠ edgeKey c p) :
    dlookup res.topoRel (edgeKey p c) = some rr ∧
    dlookup res.topoRel (edgeKey c p) = none ∧
    (dlookup res.topo (edgeKey p c)).map MateFeatureData.id = some m.id ∧
    (∀ x : String,
      (∀ e ∈ edges, edgeKey e.1 e.2 ≠ x ∧ edgeKey e.2 e.1 ≠ x) →
      dlookup res.topoRel x = dlookup relations x) := by
  obtain ⟨hgo, _⟩ := get_topological_mates_some hres
  have hrel := gtmGo_rogue_rel_main hsp hne hKR edges _ _ _ _ _ _ hmem hnd
    hsep hm hr hrnd hgo
  have htopo := (gtmGo_rogue_main hsp hne edges _ _ _ _ _ _ hmem hnd
    (fun e he hne₂ => ⟨(hsep e he hne₂).1, (hsep e he hne₂).2.2.2⟩) hm hgo).1
  refine ⟨hrel.1, hrel.2, ?hid, ?hframe⟩
  · rw [htopo]
    rfl
  · intro x hx
    exact gtmGo_frame_rel edges _ _ _ _ _ _ hx hgo

/-- Witness for C4 at a concrete input: one rogue edge whose relation is
stored under the reversed key, with the mimic-lookup key mid3 left
untouched. -/
theorem C4_relation_rewrite_witness :
    ∃ res, get_topological_mates exC4.edges exC4.mates exC4.relations =
        some res ∧
      dlookup res.topoRel (edgeKey "r" "a") = some relC4 ∧
      dlookup res.topoRel (edgeKey "a" "r") = none ∧
      (dlookup res.topo (edgeKey "r" "a")).map MateFeatureData.id =
        some "mid3" := by
  cases hres : get_topological_mates exC4.edges exC4.mates exC4.relations with
  | none =>
    have : (get_topological_mates exC4.edges exC4.mates exC4.relations).isSome =
        true := by decide
    rw [hres] at this
    cases this
  | some res =>
    have h := C4_relation_rewrite exC4.edges exC4.mates exC4.relations "r" "a"
      mateRev relC4 res hres (by decide) (by decide) (by decide) (by decide)
      (by decide) (by decide) (by decide) (by decide) (by decide)
    exact ⟨res, rfl, h.1, h.2.1, h.2.2.1⟩

theorem revEntities_revEntities (m : MateFeatureData) :
    revEntities (revEntities m) = m := by
  cases m
  simp [revEntities]

theorem mateKeySplits_eq_keys (mates : MateDict) :
    mateKeySplits mates =
      (mates.map Prod.fst).map fun k => pySplit k MATE_JOINER := by
  simp [mateKeySplits, List.map_map]

/-- C10: get_topological_mates mutates its inputs. The returned relation
table is also the post-state of the caller relations dictionary; reversing
a rogue mate flips the entities on the entry the caller dictionary still
holds (only values change, never keys); and a second call over the
post-state dictionaries resolves the same edge to the doubly reversed,
that is original, entity order, which differs from the first result
whenever the entity list is not a palindrome. -/
theorem C10_topological_mates_mutates_inputs
    (edges : List (String × String)) (mates : MateDict) (relations : RelDict)
    (p c : String) (m : MateFeatureData) (res : TopoResult)
    (hres : get_topological_mates edges mates relations = some res)
    (hmem : (p, c) ∈ edges) (hnd : edges.Nodup)
    (hsp : [c, p] ∈ mateKeySplits mates)
    (hne : [c, p] ∉ edgeSplits edges)
    (hm : dlookup mates (edgeKey c p) = some m)
    (hsep : ∀ e ∈ edges, e ≠ (p, c) →
      edgeKey e.1 e.2 ≠ edgeKey p c ∧ edgeKey e.2 e.1 ≠ edgeKey c p)
    (hent : m.matedEntities.reverse ≠ m.matedEntities) :
    res.relationsPost = res.topoRel ∧
    dlookup res.matesPost (edgeKey c p) = some (revEntities m) ∧
    res.matesPost.map Prod.fst = mates.map Prod.fst ∧
    dlookup res.topo (edgeKey p c) = some (revEntities m) ∧
    (∀ res₂ : TopoResult,
      get_topological_mates edges res.matesPost res.relationsPost =
        some res₂ →
      dlookup res₂.topo (edgeKey p c) = some m ∧
      dlookup res₂.topo (edgeKey p c) ≠ dlookup res.topo (edgeKey p c)) := by
  obtain ⟨hgo, halias⟩ := get_topological_mates_some hres
  have hmain := gtmGo_rogue_main hsp hne edges _ _ _ _ _ _ hmem hnd hsep hm hgo
  have hkeys := gtmGo_mates_keys edges _ _ _ _ _ _ hgo
  refine ⟨halias, hmain.2, hkeys, hmain.1, ?hsecond⟩
  intro res₂ hres₂
  obtain ⟨hgo₂, _⟩ := get_topological_mates_some hres₂
  have hsp₂ : [c, p] ∈ mateKeySplits res.matesPost := by
    rw [mateKeySplits_eq_keys, hkeys, ← mateKeySplits_eq_keys]
    exact hsp
  have hmain₂ := gtmGo_rogue_main hsp₂ hne edges _ _ _ _ _ _ hmem hnd hsep
    hmain.2 hgo₂
  have htopo₂ : dlookup res₂.topo (edgeKey p c) = some m := by
    rw [hmain₂.1, revEntities_revEntities]
  refine ⟨htopo₂, ?hdiff⟩
  rw [htopo₂, hmain.1]
  intro hcontra
  injection hcontra with hcontra
  have : m.matedEntities = m.matedEntities.reverse :=
    congrArg MateFeatureData.matedEntities hcontra
  exact hent this.symm

/-- Witness for C10: running the resolver twice on the same rogue-mate
input shows the reversal in the caller dictionary and the differing second
result. -/
theorem C10_topological_mates_mutates_inputs_witness :
    ∃ res, get_topological_mates [("r", "a")] [("a-MATE-r", mateRev)] [] =
        some res ∧
      res.relationsPost = res.topoRel ∧
      dlookup res.matesPost (edgeKey "a" "r") = some (revEntities mateRev) ∧
      ∀ res₂, get_topological_mates [("r", "a")] res.matesPost
          res.relationsPost = some res₂ →
        dlookup res₂.topo (edgeKey "r" "a") = some mateRev ∧
        dlookup res₂.topo (edgeKey "r" "a") ≠
          dlookup res.topo (edgeKey "r" "a") := by
  cases hres : get_topological_mates [("r", "a")] [("a-MATE-r", mateRev)] [] with
  | none =>
    have : (get_topological_mates [("r", "a")]
        [("a-MATE-r", mateRev)] []).isSome = true := by decide
    rw [hres] at this
    cases this
  | some res =>
    have h := C10_topological_mates_mutates_inputs [("r", "a")]
      [("a-MATE-r", mateRev)] [] "r" "a" mateRev res hres (by decide)
      (by decide) (by decide) (by decide) (by decide) (by decide) (by decide)
    exact ⟨res, rfl, h.1, h.2.1, h.2.2.2.2⟩

/-- Counterexample to C2 as stated: for a BALL mate the two auxiliary
bodies are named from the parent body (parent-dummy-x, parent-dummy-y),
not from the sanitized mate name suffixed -x, -y, -z; at this concrete
input no auxiliary body name lies in that set. -/
theorem C2_counterexample :
    ¬ ∀ l ∈ (get_robot_joint id "p" "c" mateBall eye4 none false).2,
        l.name ∈ [id mateBall.name ++ "-x", id mateBall.name ++ "-y",
          id mateBall.name ++ "-z"] := by decide

/-- C2 (amended): the joint table of get_robot_joint. FASTENED gives one
Fixed joint, REVOLUTE one Revolute, SLIDER and CYLINDRICAL one Prismatic,
BALL three Revolute joints about X, Y, Z chained parent to dummy-x to
dummy-y to child through two bodies that carry nothing but a name, and
every other type one Dummy joint with a warning. Joints are named from the
sanitized mate name (suffixed -x, -y, -z for BALL); the auxiliary bodies
are named parent-dummy-x and parent-dummy-y from the parent body name. -/
theorem C2_joint_table (sanitize : String → String) (parent child : String)
    (mate : MateFeatureData) (tf : Mat4) (mimic : Option JointMimic)
    (rig : Bool) (js : List BaseJoint) (ls : List Link)
    (hj : get_robot_joint sanitize parent child mate tf mimic rig = (js, ls)) :
    (mate.mateType = .FASTENED →
      js.map BaseJoint.kind = [.fixed] ∧
      js.map BaseJoint.name = [sanitize mate.name] ∧
      js.map BaseJoint.parent = [parent] ∧
      js.map BaseJoint.child = [child] ∧
      js.map BaseJoint.mimic = [none] ∧ ls = []) ∧
    (mate.mateType = .REVOLUTE →
      js.map BaseJoint.kind = [.revolute] ∧
      js.map BaseJoint.name = [sanitize mate.name] ∧
      js.map BaseJoint.parent = [parent] ∧
      js.map BaseJoint.child = [child] ∧
      js.map BaseJoint.limits = [some ⟨1, 1, -NP_PI, NP_PI⟩] ∧
      js.map BaseJoint.axis = [some ⟨[0, 0, -1]⟩] ∧
      js.map BaseJoint.mimic = [mimic] ∧ ls = []) ∧
    (mate.mateType = .SLIDER ∨ mate.mateType = .CYLINDRICAL →
      js.map BaseJoint.kind = [.prismatic] ∧
      js.map BaseJoint.name = [sanitize mate.name] ∧
      js.map BaseJoint.parent = [parent] ∧
      js.map BaseJoint.child = [child] ∧
      js.map BaseJoint.limits = [some ⟨1, 1, -0.1, 0.1⟩] ∧
      js.map BaseJoint.axis = [some ⟨[0, 0, -1]⟩] ∧
      js.map BaseJoint.mimic = [mimic] ∧ ls = []) ∧
    (mate.mateType = .BALL →
      js.map BaseJoint.kind = [.revolute, .revolute, .revolute] ∧
      js.map BaseJoint.name = [sanitize mate.name ++ "-x",
        sanitize mate.name ++ "-y", sanitize mate.name ++ "-z"] ∧
      js.map BaseJoint.parent = [parent, parent ++ "-dummy-x",
        parent ++ "-dummy-y"] ∧
      js.map BaseJoint.child = [parent ++ "-dummy-x", parent ++ "-dummy-y",
        child] ∧
      js.map BaseJoint.axis = [some ⟨[1, 0, 0]⟩, some ⟨[0, 1, 0]⟩,
        some ⟨[0, 0, -1]⟩] ∧
      js.map BaseJoint.limits = [some ⟨1, 1, -NP_PI, NP_PI⟩,
        some ⟨1, 1, -NP_PI, NP_PI⟩, some ⟨1, 1, -NP_PI, NP_PI⟩] ∧
      js.map BaseJoint.mimic = [mimic, mimic, mimic] ∧
      ls.map Link.name = [parent ++ "-dummy-x", parent ++ "-dummy-y"] ∧
      ls.map Link.inertial = [none, none] ∧
      ls.map Link.visual = [none, none] ∧
      ls.map Link.collision = [none, none]) ∧
    (mate.mateType = .PLANAR ∨ mate.mateType = .PIN_SLOT ∨
        mate.mateType = .PARALLEL →
      js.map BaseJoint.kind = [.dummy] ∧
      js.map BaseJoint.name = [sanitize mate.name] ∧
      js.map BaseJoint.parent = [parent] ∧
      js.map BaseJoint.child = [child] ∧
      js.map BaseJoint.mimic = [none] ∧ ls = [] ∧
      get_robot_joint_warning mate = ["Unsupported joint type"]) ∧
    (js.length = if mate.mateType = .BALL then 3 else 1) ∧
    (ls.length = if mate.mateType = .BALL then 2 else 0) := by
  obtain ⟨mid, ents, mt, mname⟩ := mate
  cases mt <;>
  · simp only [get_robot_joint] at hj
    injection hj with h1 h2
    subst h1
    subst h2
    simp [RevoluteJoint, FixedJoint, PrismaticJoint, DummyJoint,
      get_robot_joint_warning]

/-- Witness for C2 (amended) at a concrete BALL mate. -/
theorem C2_joint_table_witness :
    ∃ js ls, get_robot_joint id "p" "c" mateBall eye4 none false = (js, ls) ∧
      js.map BaseJoint.name = [id mateBall.name ++ "-x",
        id mateBall.name ++ "-y", id mateBall.name ++ "-z"] ∧
      ls.map Link.name = ["p" ++ "-dummy-x", "p" ++ "-dummy-y"] ∧
      js.length = 3 ∧ ls.length = 2 := by
  cases hj : get_robot_joint id "p" "c" mateBall eye4 none false with
  | mk js ls =>
    have h := C2_joint_table id "p" "c" mateBall eye4 none false js ls hj
    refine ⟨js, ls, rfl, (h.2.2.2.1 rfl).2.1, (h.2.2.2.1 rfl).2.2.2.2.2.2.2.1, ?hl1, ?hl2⟩
    · rw [h.2.2.2.2.2.1]
      rfl
    · rw [h.2.2.2.2.2.2]
      rfl

/-- Counterexample to C5 as stated: at this input the relation is found
but its driving mate id resolves to no joint name; the mimic is not
omitted, the joint carries an attached mimic whose target is the absent
None, with multiplier 1.0 and offset 0.0. -/
theorem C5_counterexample :
    (runUrdf id (fun _ => Colors.red) exC5 (seqSchedule 1)).map
        (fun st => (dlookup st.joints "v1").map BaseJoint.mimic) =
      some (some (some ⟨none, 1, 0⟩)) := by decide

/-- C5 (amended): when the relation lookup under the mate id succeeds, a
mimic is always built and attached, with target the reverse-index lookup
of the driving mate id (None when that lookup fails, rather than the mimic
being omitted), offset 0, and multiplier equal to the relation ratio
except that an absent ratio or a ratio of exactly 0 both give 1; for a
revolute mate the synthesized joint carries exactly that mimic. -/
theorem C5_mimic_defaults (topoRel : RelDict) (topo : MateDict)
    (mate : MateFeatureData) (rel : MateRelationFeatureData)
    (hrel : dlookup topoRel mate.id = some rel) (drv : MateRelationMate)
    (hdrv : rel.mates.get? RELATION_PARENT = some drv) :
    ∃ jm : JointMimic,
      mkJointMimic topoRel topo mate = some (some jm) ∧
      jm.joint = get_joint_name drv.featureId topo ∧
      jm.offset = 0 ∧
      (rel.relationRatio' = none → jm.multiplier = 1) ∧
      (rel.relationRatio' = some 0 → jm.multiplier = 1) ∧
      (∀ q : ℚ, rel.relationRatio' = some q → q ≠ 0 → jm.multiplier = q) ∧
      ((∀ kv ∈ topo, kv.2.id ≠ drv.featureId) → jm.joint = none) ∧
      (∀ (sanitize : String → String) (parent child : String) (tf : Mat4)
          (rig : Bool), mate.mateType = .REVOLUTE →
        (get_robot_joint sanitize parent child mate tf (some jm) rig).1.map
          BaseJoint.mimic = [some jm]) := by
  refine ⟨⟨get_joint_name drv.featureId topo, ratioOrOne rel.relationRatio',
    0⟩, ?heq, rfl, rfl, ?hnone, ?hzero, ?hsome, ?hlost, ?hrev⟩
  · simp only [mkJointMimic, hrel, hdrv]
  · intro h
    simp [ratioOrOne, h]
  · intro h
    simp [ratioOrOne, h]
  · intro q h hq
    simp [ratioOrOne, h, hq]
  · intro h
    simp only [get_joint_name]
    rw [List.find?_eq_none.mpr]
    · rfl
    · intro kv hkv
      have hkv₂ : kv ∈ topo := List.mem_reverse.mp hkv
      simp only [beq_eq_false_iff_ne, ne_eq, beq_iff_eq]
      exact h kv hkv₂
  · intro sanitize parent child tf rig hmt
    obtain ⟨mid, ents, mt, mname⟩ := mate
    simp only at hmt
    subst hmt
    simp [get_robot_joint, RevoluteJoint]

/-- Witness for C5 (amended): a relation with an unresolvable driving mate
and no ratio yields an attached mimic with target None and multiplier 1. -/
theorem C5_mimic_defaults_witness :
    ∃ jm : JointMimic,
      mkJointMimic [("mid3", relLost)] [("r-MATE-a", mateRev)] mateRev =
        some (some jm) ∧
      jm.joint = none ∧ jm.multiplier = 1 ∧ jm.offset = 0 := by
  obtain ⟨jm, h1, h2, h3, h4, _, _, h7, _⟩ :=
    C5_mimic_defaults [("mid3", relLost)] [("r-MATE-a", mateRev)] mateRev
      relLost (by decide) ⟨"ghost", []⟩ (by decide)
  exact ⟨jm, h1, h7 (by decide), h4 rfl, h3⟩

/-- Counterexample to C6 as stated: with a rigid-assembly parent the mesh
to body transform of the child is the inverse of the raw parent-side mate
frame, not of the frame composed with the placement transform; at this
input the two inverses differ in the translation entry. -/
theorem C6_counterexample :
    (get_robot_link (fun _ => Colors.red) "a" partRigid "w"
        (some mateRev)).stl_to_link_tf 0 3 ≠
      inv4 (mul4 (ParentCS.part_tf ⟨transCS⟩)
        (MatedCS.part_to_mate_tf idCS)) 0 3 := by
  have hL : (get_robot_link (fun _ => Colors.red) "a" partRigid "w"
      (some mateRev)).stl_to_link_tf = inv4 (MatedCS.part_to_mate_tf idCS) :=
    rfl
  rw [hL]
  norm_num [inv4, det4, cof4, det3of, minor4, skip, mul4,
    MatedCS.part_to_mate_tf, ParentCS.part_tf, transCS, idCS]

/-- C6 (amended): the mesh-to-body transform of a non-root body is the
inverse of the raw parent-side mate frame, never composed with the
placement transform; the placement transform enters only the joint origin,
which is the parent mesh-to-body transform times the parent-side frame,
composed with the placement exactly when the parent is a rigid
sub-assembly; the root mesh-to-body is the inverse of the translation
matrix built from the center of mass. -/
theorem C6_transform_composition (colorDraw : String → Colors)
    (name : String) (part : Part) (wid : String) (m : MateFeatureData)
    (sanitize : String → String) (parent child : String) (tf : Mat4)
    (mimic : Option JointMimic) :
    ((get_robot_link colorDraw name part wid (some m)).stl_to_link_tf =
      inv4 (m.matedEntities.getD 0 defaultEntity).matedCS.part_to_mate_tf) ∧
    ((get_robot_link colorDraw name part wid none).stl_to_link_tf =
      inv4 (transTf part.MassProperty.center_of_mass)) ∧
    (∀ rig : Bool,
      ((get_robot_joint sanitize parent child m tf mimic rig).1.map
          BaseJoint.origin).head? =
        some (Origin.from_matrix (mul4 tf
          (if rig then
            mul4 (m.matedEntities.getD PARENT defaultEntity).parentCS.part_tf
              (m.matedEntities.getD PARENT defaultEntity).matedCS.part_to_mate_tf
          else
            (m.matedEntities.getD PARENT defaultEntity).matedCS.part_to_mate_tf)))) := by
  refine ⟨rfl, rfl, ?hjoint⟩
  intro rig
  obtain ⟨mid, ents, mt, mname⟩ := m
  cases mt <;> cases rig <;> rfl

/-- C9: evaluating the orchestrator at a valid two-level chain. Both mates
are present and the tree is well formed, yet under the interleaving in
which the deeper task runs its first segment before the parent edge has
produced the parent transform, the deeper edge is dropped with only a
warning: body b is missing from the output while the sequential
interleaving of the same input does produce it. There is no await on a
per-node future in the code, so the ordering claim fails. -/
theorem C9_dropped_edge_at_interleaving :
    (∀ e ∈ exC9.edges, (dlookup exC9.mates (edgeKey e.1 e.2)).isSome = true) ∧
    exC9.edges.Nodup ∧
    (runUrdf id (fun _ => Colors.red) exC9 schedC9).map
        (fun st => ((dlookup st.links "r").isSome,
          (dlookup st.links "a").isSome,
          (dlookup st.links "b").isSome, st.warnings)) =
      some (true, true, false, ["Parent a not found in stl_to_link_tf_map"]) ∧
    (runUrdf id (fun _ => Colors.red) exC9 (seqSchedule 2)).map
        (fun st => (dlookup st.links "b").isSome) = some true := by
  refine ⟨by decide, by decide, by decide, by decide⟩

theorem get_robot_joint_aux_names (sanitize : String → String)
    (parent child : String) (mate : MateFeatureData) (tf : Mat4)
    (mimic : Option JointMimic) (rig : Bool) :
    (get_robot_joint sanitize parent child mate tf mimic rig).2.map Link.name =
      auxLinkNames parent mate.mateType := by
  obtain ⟨mid, ents, mt, mname⟩ := mate
  cases mt <;> rfl

theorem get_robot_joint_names (sanitize : String → String)
    (parent child : String) (mate : MateFeatureData) (tf : Mat4)
    (mimic : Option JointMimic) (rig : Bool) :
    (get_robot_joint sanitize parent child mate tf mimic rig).1.map
      BaseJoint.name = jointNames sanitize mate := by
  obtain ⟨mid, ents, mt, mname⟩ := mate
  cases mt <;> rfl

/-- Inversion of the first task segment: either the parent transform was
missing and the task ends having written nothing (only a warning), or the
task wrote exactly the auxiliary link names and the joint names of its
mate and suspends carrying the child. -/
theorem processEdgeSeg1_inv {ctx : SynthCtx} {st st' : SynthState}
    {p c : String} {opend : Option Pending}
    (h : processEdgeSeg1 ctx st (p, c) = some (st', opend)) :
    (st'.linkWrites = st.linkWrites ∧ st'.jointWrites = st.jointWrites ∧
      st'.assetWrites = st.assetWrites ∧ opend = none) ∨
    (∃ mate, dlookup ctx.topo (edgeKey p c) = some mate ∧
      st'.linkWrites = st.linkWrites ++ auxLinkNames p mate.mateType ∧
      st'.jointWrites = st.jointWrites ++ jointNames ctx.sanitize mate ∧
      st'.assetWrites = st.assetWrites ∧
      opend = some ⟨c, edgeKey p c⟩) := by
  simp only [processEdgeSeg1] at h
  cases hp : dlookup st.stlTf p with
  | none =>
    simp only [hp, Option.some.injEq, Prod.mk.injEq] at h
    obtain ⟨h1, h2⟩ := h
    subst h1
    exact Or.inl ⟨rfl, rfl, rfl, h2.symm⟩
  | some ptf =>
    simp only [hp] at h
    cases hmate : dlookup ctx.topo (edgeKey p c) with
    | none => simp only [hmate] at h; cases h
    | some mate =>
      simp only [hmate] at h
      cases hmim : mkJointMimic ctx.topoRel ctx.topo mate with
      | none => simp only [hmim] at h; cases h
      | some jm =>
        simp only [hmim] at h
        cases hpart : dlookup ctx.parts p with
        | none => simp only [hpart] at h; cases h
        | some parentPart =>
          simp only [hpart, Option.some.injEq, Prod.mk.injEq] at h
          obtain ⟨h1, h2⟩ := h
          subst h1
          refine Or.inr ⟨mate, rfl, ?hlw, ?hjw, rfl, h2.symm⟩
          · show st.linkWrites ++
              ((get_robot_joint ctx.sanitize p c mate ptf jm
                parentPart.isRigidAssembly).2.map Link.name) =
              st.linkWrites ++ auxLinkNames p mate.mateType
            rw [get_robot_joint_aux_names]
          · show st.jointWrites ++
              ((get_robot_joint ctx.sanitize p c mate ptf jm
                parentPart.isRigidAssembly).1.map BaseJoint.name) =
              st.jointWrites ++ jointNames ctx.sanitize mate
            rw [get_robot_joint_names]

/-- Inversion of the second task segment: it writes exactly the child into
the link and asset maps. -/
theorem processEdgeSeg2_inv {ctx : SynthCtx} {st st' : SynthState}
    {pd : Pending} (h : processEdgeSeg2 ctx st pd = some st') :
    st'.linkWrites = st.linkWrites ++ [pd.child] ∧
    st'.jointWrites = st.jointWrites ∧
    st'.assetWrites = st.assetWrites ++ [pd.child] := by
  simp only [processEdgeSeg2] at h
  cases hmate : dlookup ctx.topo pd.mateKey with
  | none => simp only [hmate] at h; cases h
  | some mate =>
    simp only [hmate] at h
    cases hpart : dlookup ctx.parts pd.child with
    | none => simp only [hpart] at h; cases h
    | some childPart =>
      simp only [hpart, Option.some.injEq] at h
      subst h
      exact ⟨rfl, rfl, rfl⟩

theorem get?_set_self {α : Type} {l : List α} {i : Nat} (v : α)
    (h : i < l.length) : (l.set i v).get? i = some v := by
  rw [List.get?_eq_getElem?, List.getElem?_set_self']
  simp [List.getElem?_eq_getElem h]

theorem get?_set_ne {α : Type} {l : List α} {i j : Nat} (v : α)
    (h : i ≠ j) : (l.set i v).get? j = l.get? j := by
  rw [List.get?_eq_getElem?, List.get?_eq_getElem?]
  rw [List.getElem?_set_ne h]

theorem runSched_cons_seg1 {ctx : SynthCtx} {edges : List (String × String)}
    {i : Nat} {rest : List Nat} {tasks : List TaskState} {st : SynthState}
    {e : String × String} (hedge : edges.get? i = some e)
    (htask : tasks.get? i = some ⟨0, none⟩) :
    runSched ctx edges (i :: rest) tasks st =
      match processEdgeSeg1 ctx st e with
      | none => none
      | some (st', opend) =>
        runSched ctx edges rest
          (tasks.set i
            (match opend with
             | some pd => ⟨1, some pd⟩
             | none => ⟨2, none⟩)) st' := by
  simp only [runSched, hedge, htask]
  simp

theorem runSched_cons_seg2 {ctx : SynthCtx} {edges : List (String × String)}
    {i : Nat} {rest : List Nat} {tasks : List TaskState} {st : SynthState}
    {e : String × String} {pd : Pending} (hedge : edges.get? i = some e)
    (htask : tasks.get? i = some ⟨1, some pd⟩) :
    runSched ctx edges (i :: rest) tasks st =
      match processEdgeSeg2 ctx st pd with
      | none => none
      | some st' => runSched ctx edges rest (tasks.set i ⟨2, none⟩) st' := by
  simp only [runSched, hedge, htask]
  simp

theorem runSched_cons_skip_done {ctx : SynthCtx}
    {edges : List (String × String)} {i : Nat} {rest : List Nat}
    {tasks : List TaskState} {st : SynthState} {e : String × String}
    (hedge : edges.get? i = some e)
    (htask : tasks.get? i = some ⟨2, none⟩) :
    runSched ctx edges (i :: rest) tasks st =
      runSched ctx edges rest tasks st := by
  simp only [runSched, hedge, htask]
  simp

theorem runSched_cons_skip_oob {ctx : SynthCtx}
    {edges : List (String × String)} {i : Nat} {rest : List Nat}
    {tasks : List TaskState} {st : SynthState}
    (hedge : edges.get? i = none) :
    runSched ctx edges (i :: rest) tasks st =
      runSched ctx edges rest tasks st := by
  cases htask : tasks.get? i <;> simp only [runSched, hedge, htask]

/-- Running the tasks as gathered pairs, first segment then second, over a
list of distinct fresh task indices: every map write the run performs is
drawn, in order, from the per-task write blocks, so the written keys form
a sublist of the concatenated blocks. -/
theorem runSched_pairs_writes (ctx : SynthCtx)
    (edges : List (String × String)) :
    ∀ (is : List Nat) (tasks : List TaskState) (st : SynthState)
      (tasks₂ : List TaskState) (st₂ : SynthState),
      is.Nodup →
      (∀ i ∈ is, i < edges.length → tasks.get? i = some ⟨0, none⟩) →
      runSched ctx edges (is.flatMap fun i => [i, i]) tasks st =
        some (tasks₂, st₂) →
      ∃ Δl Δj Δa,
        st₂.linkWrites = st.linkWrites ++ Δl ∧
        st₂.jointWrites = st.jointWrites ++ Δj ∧
        st₂.assetWrites = st.assetWrites ++ Δa ∧
        List.Sublist Δl (is.flatMap fun i => linkBlock ctx.topo edges i) ∧
        List.Sublist Δj
          (is.flatMap fun i => jointBlock ctx.sanitize ctx.topo edges i) ∧
        List.Sublist Δa (is.flatMap fun i => assetBlock edges i) := by
  intro is
  induction is with
  | nil =>
    intro tasks st tasks₂ st₂ _ _ hrun
    simp only [List.flatMap_nil, runSched, Option.some.injEq,
      Prod.mk.injEq] at hrun
    refine ⟨[], [], [], ?_, ?_, ?_, List.Sublist.refl _,
      List.Sublist.refl _, List.Sublist.refl _⟩ <;>
      simp [← hrun.2]
  | cons i is ih =>
    intro tasks st tasks₂ st₂ hnd hfresh hrun
    rw [List.flatMap_cons] at hrun
    have hnd₂ := List.nodup_cons.mp hnd
    cases hedge : edges.get? i with
    | none =>
      rw [show [i, i] ++ (is.flatMap fun j => [j, j]) =
          i :: i :: (is.flatMap fun j => [j, j]) from rfl,
        runSched_cons_skip_oob hedge, runSched_cons_skip_oob hedge] at hrun
      obtain ⟨dl, dj, da, h1, h2, h3, s1, s2, s3⟩ :=
        ih tasks st tasks₂ st₂ hnd₂.2
          (fun j hj hlt => hfresh j (List.mem_cons_of_mem _ hj) hlt) hrun
      refine ⟨dl, dj, da, h1, h2, h3, ?_, ?_, ?_⟩ <;>
        simp only [List.flatMap_cons, linkBlock, jointBlock, assetBlock,
          hedge, Option.map_none', Option.getD_none, List.nil_append] <;>
        assumption
    | some e =>
      have hlt : i < edges.length := by
        rcases List.get?_eq_some.mp hedge with ⟨h, _⟩
        exact h
      have hlt₂ : i < tasks.length := by
        have := hfresh i (List.mem_cons_self _ _) hlt
        rcases List.get?_eq_some.mp this with ⟨h, _⟩
        exact h
      have htask := hfresh i (List.mem_cons_self _ _) hlt
      rw [show [i, i] ++ (is.flatMap fun j => [j, j]) =
          i :: i :: (is.flatMap fun j => [j, j]) from rfl,
        runSched_cons_seg1 hedge htask] at hrun
      cases hseg1 : processEdgeSeg1 ctx st e with
      | none => simp only [hseg1] at hrun; cases hrun
      | some res =>
        obtain ⟨st₁, opend⟩ := res
        simp only [hseg1] at hrun
        obtain ⟨pe, ce⟩ := e
        cases opend with
        | none =>
          -- the task ended early: nothing written, pc goes to 2
          rw [runSched_cons_skip_done hedge (get?_set_self _ hlt₂)] at hrun
          rcases processEdgeSeg1_inv hseg1 with
            ⟨hl, hj, ha, _⟩ | ⟨mate, _, _, _, _, hcontra⟩
          · obtain ⟨dl, dj, da, h1, h2, h3, s1, s2, s3⟩ :=
              ih (tasks.set i ⟨2, none⟩) st₁ tasks₂ st₂ hnd₂.2
                (fun j hj hlt₃ => by
                  rw [get?_set_ne _ (fun hh => hnd₂.1 (by rw [hh]; exact hj))]
                  exact hfresh j (List.mem_cons_of_mem _ hj) hlt₃) hrun
            refine ⟨dl, dj, da, by rw [h1, hl], by rw [h2, hj],
              by rw [h3, ha], ?_, ?_, ?_⟩
            · simp only [List.flatMap_cons]
              exact List.Sublist.trans s1 (List.sublist_append_right _ _)
            · simp only [List.flatMap_cons]
              exact List.Sublist.trans s2 (List.sublist_append_right _ _)
            · simp only [List.flatMap_cons]
              exact List.Sublist.trans s3 (List.sublist_append_right _ _)
          · cases hcontra
        | some pd =>
          -- full first segment, then the second segment of the same task
          rw [runSched_cons_seg2 hedge (get?_set_self _ hlt₂)] at hrun
          cases hseg2 : processEdgeSeg2 ctx st₁ pd with
          | none => simp only [hseg2] at hrun; cases hrun
          | some st₃ =>
            simp only [hseg2] at hrun
            rw [List.set_set] at hrun
            rcases processEdgeSeg1_inv hseg1 with
              ⟨_, _, _, hcontra⟩ | ⟨mate, hmate, hl1, hj1, ha1, hpd⟩
            · cases hcontra
            · injection hpd with hpd
              subst hpd
              obtain ⟨hl2, hj2, ha2⟩ := processEdgeSeg2_inv hseg2
              obtain ⟨dl, dj, da, h1, h2, h3, s1, s2, s3⟩ :=
                ih (tasks.set i ⟨2, none⟩) st₃ tasks₂ st₂ hnd₂.2
                  (fun j hj hlt₃ => by
                    rw [get?_set_ne _ (fun hh => hnd₂.1 (by rw [hh]; exact hj))]
                    exact hfresh j (List.mem_cons_of_mem _ hj) hlt₃) hrun
              refine ⟨auxLinkNames pe mate.mateType ++ [ce] ++ dl,
                jointNames ctx.sanitize mate ++ dj, [ce] ++ da,
                ?_, ?_, ?_, ?_, ?_, ?_⟩
              · rw [h1, hl2, hl1]
                simp [List.append_assoc]
              · rw [h2, hj2, hj1, List.append_assoc]
              · rw [h3, ha2, ha1, List.append_assoc]
              · simp only [List.flatMap_cons, linkBlock, hedge, hmate,
                  Option.map_some', Option.getD_some]
                exact List.Sublist.append (List.Sublist.refl _) s1
              · simp only [List.flatMap_cons, jointBlock, hedge, hmate,
                  Option.map_some', Option.getD_some]
                exact List.Sublist.append (List.Sublist.refl _) s2
              · simp only [List.flatMap_cons, assetBlock, hedge,
                  Option.map_some', Option.getD_some]
                exact List.Sublist.append (List.Sublist.refl _) s3

theorem runUrdf_some {sanitize : String → String}
    {colorDraw : String → Colors} {inp : UrdfInput} {sched : List Nat}
    {st : SynthState}
    (h : runUrdf sanitize colorDraw inp sched = some st) :
    ∃ tr rootPart tasks₂,
      get_topological_mates inp.edges inp.mates inp.relations = some tr ∧
      dlookup inp.parts inp.rootNode = some rootPart ∧
      runSched (mkCtx sanitize colorDraw inp tr) inp.edges sched
        (inp.edges.map fun _ => (⟨0, none⟩ : TaskState))
        (rootState colorDraw inp rootPart) = some (tasks₂, st) := by
  simp only [runUrdf] at h
  cases hgtm : get_topological_mates inp.edges inp.mates inp.relations with
  | none => simp only [hgtm] at h; cases h
  | some tr =>
    simp only [hgtm] at h
    cases hpart : dlookup inp.parts inp.rootNode with
    | none => simp only [hpart] at h; cases h
    | some rootPart =>
      simp only [hpart] at h
      cases hsched : runSched (mkCtx sanitize colorDraw inp tr) inp.edges sched
          (inp.edges.map fun _ => (⟨0, none⟩ : TaskState))
          (rootState colorDraw inp rootPart) with
      | none => simp only [hsched] at h; cases h
      | some res =>
        obtain ⟨tasks₂, st'⟩ := res
        simp only [hsched, Option.some.injEq] at h
        subst h
        exact ⟨tr, rootPart, tasks₂, rfl, rfl, hsched⟩

theorem flatMap_range_get {α β : Type} (l : List α) (f : α → List β) :
    (List.range l.length).flatMap (fun i => ((l.get? i).map f).getD []) =
      l.flatMap f := by
  induction l with
  | nil => rfl
  | cons hd tl ih =>
    rw [List.length_cons, List.range_succ_eq_map, List.flatMap_cons,
      List.flatMap_map, List.flatMap_cons]
    exact congrArg (f hd ++ ·) ih

theorem flatMap_singleton_eq_map {α β : Type} (l : List α) (g : α → β) :
    l.flatMap (fun e => [g e]) = l.map g := by
  induction l with
  | nil => rfl
  | cons hd tl ih => simp [List.flatMap_cons, ih]

/-- Shifting the start index of a capacity sum reindexes the capacity
function. -/
theorem remSumFrom_shift (f : Nat → TaskState → Multiset String) :
    ∀ (ts : List TaskState) (k : Nat),
      remSumFrom f (k + 1) ts =
        remSumFrom (fun i t => f (i + 1) t) k ts := by
  intro ts
  induction ts with
  | nil => intro k; rfl
  | cons hd tl ih =>
    intro k
    show f (k + 1) hd + remSumFrom f (k + 1 + 1) tl =
      f (k + 1) hd + remSumFrom (fun i t => f (i + 1) t) (k + 1) tl
    rw [ih (k + 1)]

/-- Updating one task consumes capacity: when the new task state's
capacity plus a delta fits inside the old capacity, the delta plus the new
total capacity fits inside the old total capacity. -/
theorem remSumFrom_le_set (f : Nat → TaskState → Multiset String) :
    ∀ (ts : List TaskState) (i k : Nat) (t t' : TaskState)
      (d : Multiset String),
      ts.get? i = some t → d + f (k + i) t' ≤ f (k + i) t →
      d + remSumFrom f k (ts.set i t') ≤ remSumFrom f k ts := by
  intro ts
  induction ts with
  | nil => intro i k t t' d hget; cases hget
  | cons hd tl ih =>
    intro i k t t' d hget hle
    cases i with
    | zero =>
      injection hget with hget
      subst hget
      show d + (f k t' + remSumFrom f (k + 1) tl) ≤
        f k hd + remSumFrom f (k + 1) tl
      rw [← add_assoc]
      refine add_le_add_right ?_ _
      have hk : k + 0 = k := Nat.add_zero k
      rw [hk] at hle
      exact hle
    | succ j =>
      show d + (f k hd + remSumFrom f (k + 1) (tl.set j t')) ≤
        f k hd + remSumFrom f (k + 1) tl
      have hget' : tl.get? j = some t := hget
      have hle' : d + f (k + 1 + j) t' ≤ f (k + 1 + j) t := by
        have hkj : k + 1 + j = k + (j + 1) := by omega
        rw [hkj]
        exact hle
      have hstep := ih j (k + 1) t t' d hget' hle'
      calc d + (f k hd + remSumFrom f (k + 1) (tl.set j t')) =
          f k hd + (d + remSumFrom f (k + 1) (tl.set j t')) := by
            rw [add_left_comm]
        _ ≤ f k hd + remSumFrom f (k + 1) tl := add_le_add_left hstep _

/-- The capacity sum of the all-fresh task list is the concatenation of
the per-edge blocks. -/
theorem remSumFrom_map_blocks
    (B : Option (String × String) → TaskState → List String)
    (t0 : TaskState) :
    ∀ es : List (String × String),
      remSumFrom (fun i t => (B (es.get? i) t : Multiset String)) 0
          (es.map fun _ => t0) =
        ((es.flatMap fun e => B (some e) t0 : List String) :
          Multiset String) := by
  intro es
  induction es with
  | nil => rfl
  | cons e es ih =>
    show (B (some e) t0 : Multiset String) +
        remSumFrom (fun i t => (B ((e :: es).get? i) t : Multiset String))
          (0 + 1) (es.map fun _ => t0) = _
    rw [remSumFrom_shift]
    have hfun : remSumFrom
        (fun i t => (B ((e :: es).get? (i + 1)) t : Multiset String)) 0
          (es.map fun _ => t0) =
        remSumFrom (fun i t => (B (es.get? i) t : Multiset String)) 0
          (es.map fun _ => t0) := rfl
    rw [hfun, ih, Multiset.coe_add, List.flatMap_cons]

/-- Every write a scheduled run makes is drawn from the tasks' remaining
capacity: along any schedule, each write log plus the residual capacity
only shrinks, as a multiset. -/
theorem runSched_writes_le (ctx : SynthCtx)
    (edges : List (String × String)) :
    ∀ (sched : List Nat) (tasks : List TaskState) (st : SynthState)
      (tasks' : List TaskState) (st' : SynthState),
      runSched ctx edges sched tasks st = some (tasks', st') →
      ((st'.linkWrites : Multiset String) +
          remSumFrom (fun i t =>
            (linkRemT ctx.topo (edges.get? i) t : Multiset String))
            0 tasks' ≤
        (st.linkWrites : Multiset String) +
          remSumFrom (fun i t =>
            (linkRemT ctx.topo (edges.get? i) t : Multiset String))
            0 tasks) ∧
      ((st'.jointWrites : Multiset String) +
          remSumFrom (fun i t =>
            (jointRemT ctx.sanitize ctx.topo (edges.get? i) t :
              Multiset String)) 0 tasks' ≤
        (st.jointWrites : Multiset String) +
          remSumFrom (fun i t =>
            (jointRemT ctx.sanitize ctx.topo (edges.get? i) t :
              Multiset String)) 0 tasks) ∧
      ((st'.assetWrites : Multiset String) +
          remSumFrom (fun i t =>
            (assetRemT (edges.get? i) t : Multiset String)) 0 tasks' ≤
        (st.assetWrites : Multiset String) +
          remSumFrom (fun i t =>
            (assetRemT (edges.get? i) t : Multiset String)) 0 tasks) := by
  intro sched
  induction sched with
  | nil =>
    intro tasks st tasks' st' h
    simp only [runSched, Option.some.injEq, Prod.mk.injEq] at h
    obtain ⟨h1, h2⟩ := h
    subst h1
    subst h2
    exact ⟨le_refl _, le_refl _, le_refl _⟩
  | cons i rest ih =>
    intro tasks st tasks' st' h
    simp only [runSched] at h
    cases hedge : edges.get? i with
    | none =>
      cases htask : tasks.get? i with
      | none => simp only [hedge, htask] at h; exact ih _ _ _ _ h
      | some t => simp only [hedge, htask] at h; exact ih _ _ _ _ h
    | some e =>
      obtain ⟨p, c⟩ := e
      cases htask : tasks.get? i with
      | none => simp only [hedge, htask] at h; exact ih _ _ _ _ h
      | some t =>
        simp only [hedge, htask] at h
        by_cases hpc0 : t.pc = 0
        · rw [if_pos hpc0] at h
          cases hseg : processEdgeSeg1 ctx st (p, c) with
          | none => simp only [hseg] at h; cases h
          | some pr =>
            obtain ⟨st₁, opend⟩ := pr
            simp only [hseg] at h
            obtain ⟨ihL, ihJ, ihA⟩ := ih _ _ _ _ h
            rcases processEdgeSeg1_inv hseg with
              ⟨hlw, hjw, haw, hop⟩ | ⟨mate, hmate, hlw, hjw, haw, hop⟩
            · subst hop
              refine ⟨?_, ?_, ?_⟩
              · have hz : (0 : Multiset String) +
                    (linkRemT ctx.topo (edges.get? (0 + i))
                      (⟨2, none⟩ : TaskState) : Multiset String) ≤
                    (linkRemT ctx.topo (edges.get? (0 + i)) t :
                      Multiset String) := by
                  rw [Nat.zero_add, hedge]
                  simp only [linkRemT, Multiset.coe_nil, add_zero]
                  exact zero_le _
                have hstep := remSumFrom_le_set
                  (fun j u => (linkRemT ctx.topo (edges.get? j) u :
                    Multiset String)) tasks i 0 t ⟨2, none⟩ 0 htask hz
                rw [zero_add] at hstep
                rw [hlw] at ihL
                exact le_trans ihL (add_le_add_left hstep _)
              · have hz : (0 : Multiset String) +
                    (jointRemT ctx.sanitize ctx.topo (edges.get? (0 + i))
                      (⟨2, none⟩ : TaskState) : Multiset String) ≤
                    (jointRemT ctx.sanitize ctx.topo (edges.get? (0 + i)) t :
                      Multiset String) := by
                  rw [Nat.zero_add, hedge]
                  simp only [jointRemT, Multiset.coe_nil, add_zero]
                  exact zero_le _
                have hstep := remSumFrom_le_set
                  (fun j u => (jointRemT ctx.sanitize ctx.topo
                    (edges.get? j) u : Multiset String)) tasks i 0 t
                  ⟨2, none⟩ 0 htask hz
                rw [zero_add] at hstep
                rw [hjw] at ihJ
                exact le_trans ihJ (add_le_add_left hstep _)
              · have hz : (0 : Multiset String) +
                    (assetRemT (edges.get? (0 + i))
                      (⟨2, none⟩ : TaskState) : Multiset String) ≤
                    (assetRemT (edges.get? (0 + i)) t : Multiset String) := by
                  rw [Nat.zero_add, hedge]
                  simp only [assetRemT, Multiset.coe_nil, add_zero]
                  exact zero_le _
                have hstep := remSumFrom_le_set
                  (fun j u => (assetRemT (edges.get? j) u : Multiset String))
                  tasks i 0 t ⟨2, none⟩ 0 htask hz
                rw [zero_add] at hstep
                rw [haw] at ihA
                exact le_trans ihA (add_le_add_left hstep _)
            · subst hop
              refine ⟨?_, ?_, ?_⟩
              · have hz : (auxLinkNames p mate.mateType : Multiset String) +
                    (linkRemT ctx.topo (edges.get? (0 + i))
                      (⟨1, some ⟨c, edgeKey p c⟩⟩ : TaskState) :
                      Multiset String) ≤
                    (linkRemT ctx.topo (edges.get? (0 + i)) t :
                      Multiset String) := by
                  rw [Nat.zero_add, hedge]
                  simp only [linkRemT, hpc0, hmate, Option.map_some',
                    Option.getD_some]
                  rw [Multiset.coe_add]
                have hstep := remSumFrom_le_set
                  (fun j u => (linkRemT ctx.topo (edges.get? j) u :
                    Multiset String)) tasks i 0 t
                  ⟨1, some ⟨c, edgeKey p c⟩⟩
                  (auxLinkNames p mate.mateType : Multiset String) htask hz
                rw [hlw, ← Multiset.coe_add, add_assoc] at ihL
                exact le_trans ihL (add_le_add_left hstep _)
              · have hz : (jointNames ctx.sanitize mate : Multiset String) +
                    (jointRemT ctx.sanitize ctx.topo (edges.get? (0 + i))
                      (⟨1, some ⟨c, edgeKey p c⟩⟩ : TaskState) :
                      Multiset String) ≤
                    (jointRemT ctx.sanitize ctx.topo (edges.get? (0 + i)) t :
                      Multiset String) := by
                  rw [Nat.zero_add, hedge]
                  simp only [jointRemT, hpc0, hmate, Option.map_some',
                    Option.getD_some, Multiset.coe_nil, add_zero]
                  exact le_refl _
                have hstep := remSumFrom_le_set
                  (fun j u => (jointRemT ctx.sanitize ctx.topo
                    (edges.get? j) u : Multiset String)) tasks i 0 t
                  ⟨1, some ⟨c, edgeKey p c⟩⟩
                  (jointNames ctx.sanitize mate : Multiset String) htask hz
                rw [hjw, ← Multiset.coe_add, add_assoc] at ihJ
                exact le_trans ihJ (add_le_add_left hstep _)
              · have hz : (0 : Multiset String) +
                    (assetRemT (edges.get? (0 + i))
                      (⟨1, some ⟨c, edgeKey p c⟩⟩ : TaskState) :
                      Multiset String) ≤
                    (assetRemT (edges.get? (0 + i)) t : Multiset String) := by
                  rw [Nat.zero_add, hedge]
                  simp only [assetRemT, hpc0, zero_add]
                  exact le_refl _
                have hstep := remSumFrom_le_set
                  (fun j u => (assetRemT (edges.get? j) u : Multiset String))
                  tasks i 0 t ⟨1, some ⟨c, edgeKey p c⟩⟩ 0 htask hz
                rw [zero_add] at hstep
                rw [haw] at ihA
                exact le_trans ihA (add_le_add_left hstep _)
        · by_cases hpc1 : t.pc = 1
          · rw [if_neg hpc0, if_pos hpc1] at h
            cases hpend : t.pend with
            | none => simp only [hpend] at h; cases h
            | some pd =>
              simp only [hpend] at h
              cases hseg : processEdgeSeg2 ctx st pd with
              | none => simp only [hseg] at h; cases h
              | some st₁ =>
                simp only [hseg] at h
                obtain ⟨ihL, ihJ, ihA⟩ := ih _ _ _ _ h
                obtain ⟨hlw, hjw, haw⟩ := processEdgeSeg2_inv hseg
                refine ⟨?_, ?_, ?_⟩
                · have hz : ([pd.child] : Multiset String) +
                      (linkRemT ctx.topo (edges.get? (0 + i))
                        (⟨2, none⟩ : TaskState) : Multiset String) ≤
                      (linkRemT ctx.topo (edges.get? (0 + i)) t :
                        Multiset String) := by
                    rw [Nat.zero_add, hedge]
                    simp only [linkRemT, hpc1, hpend, Multiset.coe_nil,
                      add_zero]
                    exact le_refl _
                  have hstep := remSumFrom_le_set
                    (fun j u => (linkRemT ctx.topo (edges.get? j) u :
                      Multiset String)) tasks i 0 t ⟨2, none⟩
                    ([pd.child] : Multiset String) htask hz
                  rw [hlw, ← Multiset.coe_add, add_assoc] at ihL
                  exact le_trans ihL (add_le_add_left hstep _)
                · have hz : (0 : Multiset String) +
                      (jointRemT ctx.sanitize ctx.topo (edges.get? (0 + i))
                        (⟨2, none⟩ : TaskState) : Multiset String) ≤
                      (jointRemT ctx.sanitize ctx.topo (edges.get? (0 + i))
                        t : Multiset String) := by
                    rw [Nat.zero_add, hedge]
                    simp only [jointRemT, Multiset.coe_nil, add_zero]
                    exact zero_le _
                  have hstep := remSumFrom_le_set
                    (fun j u => (jointRemT ctx.sanitize ctx.topo
                      (edges.get? j) u : Multiset String)) tasks i 0 t
                    ⟨2, none⟩ 0 htask hz
                  rw [zero_add] at hstep
                  rw [hjw] at ihJ
                  exact le_trans ihJ (add_le_add_left hstep _)
                · have hz : ([pd.child] : Multiset String) +
                      (assetRemT (edges.get? (0 + i))
                        (⟨2, none⟩ : TaskState) : Multiset String) ≤
                      (assetRemT (edges.get? (0 + i)) t :
                        Multiset String) := by
                    rw [Nat.zero_add, hedge]
                    simp only [assetRemT, hpc1, hpend, Multiset.coe_nil,
                      add_zero]
                    exact le_refl _
                  have hstep := remSumFrom_le_set
                    (fun j u => (assetRemT (edges.get? j) u :
                      Multiset String)) tasks i 0 t ⟨2, none⟩
                    ([pd.child] : Multiset String) htask hz
                  rw [haw, ← Multiset.coe_add, add_assoc] at ihA
                  exact le_trans ihA (add_le_add_left hstep _)
          · rw [if_neg hpc0, if_neg hpc1] at h
            exact ih _ _ _ _ h

/-- Counterexample to C7 as stated: two BALL edges sharing the parent r
both write the auxiliary body keys r-dummy-x and r-dummy-y, so the link
map key sequence contains duplicates and an entry is overwritten. -/
theorem C7_counterexample :
    (runUrdf id (fun _ => Colors.red) exC7 (seqSchedule 2)).map
        (fun st => st.linkWrites) =
      some ["r", "r-dummy-x", "r-dummy-y", "a", "r-dummy-x", "r-dummy-y",
        "b"] ∧
    ¬ (["r", "r-dummy-x", "r-dummy-y", "a", "r-dummy-x", "r-dummy-y",
        "b"] : List String).Nodup := by
  constructor
  · decide
  · decide

/-- C7 (amended): the body, joint and asset maps are written once per key
only under explicit distinctness assumptions, which two BALL mates sharing
a parent or two mates with equal sanitized names violate. When the
potential key pools (root plus per-edge auxiliary names and children for
links; per-edge sanitized joint names; root plus children for assets) are
duplicate free, a run writes no key twice under every interleaving: every
write log is duplicate free. -/
theorem C7_write_once_under_distinct_names (sanitize : String → String)
    (colorDraw : String → Colors) (inp : UrdfInput) (tr : TopoResult)
    (sched : List Nat) (st : SynthState)
    (hgtm : get_topological_mates inp.edges inp.mates inp.relations =
      some tr)
    (hrun : runUrdf sanitize colorDraw inp sched = some st)
    (hndL : (potentialLinkWrites inp tr.topo).Nodup)
    (hndJ : (potentialJointWrites sanitize inp tr.topo).Nodup)
    (hndA : (potentialAssetWrites inp).Nodup) :
    st.linkWrites.Nodup ∧ st.jointWrites.Nodup ∧ st.assetWrites.Nodup := by
  obtain ⟨tr₂, rootPart, tasks₂, hgtm₂, hpart, hsched⟩ := runUrdf_some hrun
  rw [hgtm] at hgtm₂
  injection hgtm₂ with hgtm₂
  subst hgtm₂
  obtain ⟨leL, leJ, leA⟩ := runSched_writes_le
    (mkCtx sanitize colorDraw inp tr) inp.edges sched _ _ tasks₂ st hsched
  have hIL : ((rootState colorDraw inp rootPart).linkWrites :
      Multiset String) +
      remSumFrom (fun i t =>
        (linkRemT (mkCtx sanitize colorDraw inp tr).topo
          (inp.edges.get? i) t : Multiset String)) 0
        (inp.edges.map fun _ => (⟨0, none⟩ : TaskState)) =
      ↑(potentialLinkWrites inp tr.topo) := by
    rw [remSumFrom_map_blocks
      (linkRemT (mkCtx sanitize colorDraw inp tr).topo) ⟨0, none⟩
      inp.edges, Multiset.coe_add]
    rfl
  have hIJ : ((rootState colorDraw inp rootPart).jointWrites :
      Multiset String) +
      remSumFrom (fun i t =>
        (jointRemT (mkCtx sanitize colorDraw inp tr).sanitize
          (mkCtx sanitize colorDraw inp tr).topo
          (inp.edges.get? i) t : Multiset String)) 0
        (inp.edges.map fun _ => (⟨0, none⟩ : TaskState)) =
      ↑(potentialJointWrites sanitize inp tr.topo) := by
    rw [remSumFrom_map_blocks
      (jointRemT (mkCtx sanitize colorDraw inp tr).sanitize
        (mkCtx sanitize colorDraw inp tr).topo) ⟨0, none⟩
      inp.edges, Multiset.coe_add]
    rfl
  have hIA : ((rootState colorDraw inp rootPart).assetWrites :
      Multiset String) +
      remSumFrom (fun i t =>
        (assetRemT (inp.edges.get? i) t : Multiset String)) 0
        (inp.edges.map fun _ => (⟨0, none⟩ : TaskState)) =
      ↑(potentialAssetWrites inp) := by
    rw [remSumFrom_map_blocks assetRemT ⟨0, none⟩ inp.edges]
    have hflat : (inp.edges.flatMap fun e =>
        assetRemT (some e) (⟨0, none⟩ : TaskState)) =
        inp.edges.map Prod.snd :=
      flatMap_singleton_eq_map inp.edges Prod.snd
    rw [hflat, Multiset.coe_add]
    rfl
  have hLle : (st.linkWrites : Multiset String) ≤
      ↑(potentialLinkWrites inp tr.topo) := by
    calc (st.linkWrites : Multiset String) ≤
        ↑st.linkWrites + remSumFrom (fun i t =>
          (linkRemT (mkCtx sanitize colorDraw inp tr).topo
            (inp.edges.get? i) t : Multiset String)) 0 tasks₂ :=
          le_add_of_nonneg_right (zero_le _)
      _ ≤ _ := leL
      _ = ↑(potentialLinkWrites inp tr.topo) := hIL
  have hJle : (st.jointWrites : Multiset String) ≤
      ↑(potentialJointWrites sanitize inp tr.topo) := by
    calc (st.jointWrites : Multiset String) ≤
        ↑st.jointWrites + remSumFrom (fun i t =>
          (jointRemT (mkCtx sanitize colorDraw inp tr).sanitize
            (mkCtx sanitize colorDraw inp tr).topo
            (inp.edges.get? i) t : Multiset String)) 0 tasks₂ :=
          le_add_of_nonneg_right (zero_le _)
      _ ≤ _ := leJ
      _ = ↑(potentialJointWrites sanitize inp tr.topo) := hIJ
  have hAle : (st.assetWrites : Multiset String) ≤
      ↑(potentialAssetWrites inp) := by
    calc (st.assetWrites : Multiset String) ≤
        ↑st.assetWrites + remSumFrom (fun i t =>
          (assetRemT (inp.edges.get? i) t : Multiset String)) 0 tasks₂ :=
          le_add_of_nonneg_right (zero_le _)
      _ ≤ _ := leA
      _ = ↑(potentialAssetWrites inp) := hIA
  exact ⟨Multiset.coe_nodup.mp
      (Multiset.nodup_of_le hLle (Multiset.coe_nodup.mpr hndL)),
    Multiset.coe_nodup.mp
      (Multiset.nodup_of_le hJle (Multiset.coe_nodup.mpr hndJ)),
    Multiset.coe_nodup.mp
      (Multiset.nodup_of_le hAle (Multiset.coe_nodup.mpr hndA))⟩

/-- Witness for C7 (amended): a two-edge input with one FASTENED and one
REVOLUTE mate has pairwise distinct potential keys, and the sequential run
writes each key once. -/
theorem C7_write_once_under_distinct_names_witness :
    ∃ tr st,
      get_topological_mates exC9.edges exC9.mates exC9.relations = some tr ∧
      runUrdf id (fun _ => Colors.red) exC9 (seqSchedule 2) = some st ∧
      st.linkWrites.Nodup ∧ st.jointWrites.Nodup ∧ st.assetWrites.Nodup := by
  cases hgtm : get_topological_mates exC9.edges exC9.mates exC9.relations with
  | none =>
    have : (get_topological_mates exC9.edges exC9.mates
        exC9.relations).isSome = true := by decide
    rw [hgtm] at this
    cases this
  | some tr =>
    cases hrun : runUrdf id (fun _ => Colors.red) exC9 (seqSchedule 2) with
    | none =>
      have : (runUrdf id (fun _ => Colors.red) exC9
          (seqSchedule 2)).isSome = true := by decide
      rw [hrun] at this
      cases this
    | some st =>
      have hconc : get_topological_mates exC9.edges exC9.mates
          exC9.relations =
          some ⟨[("r-MATE-a", mateFast),
            ("a-MATE-b", ⟨"mid8", [entA, entB], .FASTENED, "f2"⟩)], [],
            exC9.mates, []⟩ := by decide
      have htr := hconc.symm.trans hgtm
      injection htr with htr
      have hpools : (potentialLinkWrites exC9 tr.topo).Nodup ∧
          (potentialJointWrites id exC9 tr.topo).Nodup ∧
          (potentialAssetWrites exC9).Nodup := by
        rw [← htr]
        decide
      have h := C7_write_once_under_distinct_names id (fun _ => Colors.red)
        exC9 tr (seqSchedule 2) st hgtm hrun hpools.1 hpools.2.1 hpools.2.2
      exact ⟨tr, st, rfl, rfl, h.1, h.2.1, h.2.2⟩

theorem foldl_dinsert_map_era (ls : List Link) :
    ∀ A B : List (String × Link),
      A.map (fun kv => (kv.1, eraseLinkColor kv.2)) =
        B.map (fun kv => (kv.1, eraseLinkColor kv.2)) →
      ((ls.foldl (fun m l => dinsert m l.name l) A).map
          (fun kv => (kv.1, eraseLinkColor kv.2))) =
        ((ls.foldl (fun m l => dinsert m l.name l) B).map
          (fun kv => (kv.1, eraseLinkColor kv.2))) := by
  induction ls with
  | nil => intro A B h; exact h
  | cons hd tl ih =>
    intro A B h
    simp only [List.foldl_cons]
    apply ih
    rw [dinsert_map_value, dinsert_map_value, h]

/-- Equation of the first task segment when the parent transform is
missing. -/
theorem processEdgeSeg1_eq_noparent {ctx : SynthCtx} {st : SynthState}
    {p c : String} (hp : dlookup st.stlTf p = none) :
    processEdgeSeg1 ctx st (p, c) =
      some ({ st with warnings := st.warnings ++
        ["Parent " ++ p ++ " not found in stl_to_link_tf_map"] }, none) := by
  simp only [processEdgeSeg1, hp]

/-- Equation of the first task segment on the full path. -/
theorem processEdgeSeg1_eq_full {ctx : SynthCtx} {st : SynthState}
    {p c : String} {ptf : Mat4} {mate : MateFeatureData}
    {jm : Option JointMimic} {parentPart : Part}
    (hp : dlookup st.stlTf p = some ptf)
    (hmate : dlookup ctx.topo (edgeKey p c) = some mate)
    (hmim : mkJointMimic ctx.topoRel ctx.topo mate = some jm)
    (hpart : dlookup ctx.parts p = some parentPart) :
    processEdgeSeg1 ctx st (p, c) =
      some ({ st with
        links := List.foldl (fun m l => dinsert m l.name l) st.links
          (get_robot_joint ctx.sanitize p c mate ptf jm
            parentPart.isRigidAssembly).2
        linkWrites := st.linkWrites ++ List.map Link.name
          (get_robot_joint ctx.sanitize p c mate ptf jm
            parentPart.isRigidAssembly).2
        joints := List.foldl (fun m j => dinsert m j.name j) st.joints
          (get_robot_joint ctx.sanitize p c mate ptf jm
            parentPart.isRigidAssembly).1
        jointWrites := st.jointWrites ++ List.map BaseJoint.name
          (get_robot_joint ctx.sanitize p c mate ptf jm
            parentPart.isRigidAssembly).1
        warnings := st.warnings ++ get_robot_joint_warning mate },
        some ⟨c, edgeKey p c⟩) := by
  simp only [processEdgeSeg1, hp, hmate, hmim, hpart]

/-- The first task segment raises when the mate, the relation index or the
parent part is missing. -/
theorem processEdgeSeg1_eq_err {ctx : SynthCtx} {st : SynthState}
    {p c : String} {ptf : Mat4} (hp : dlookup st.stlTf p = some ptf)
    (herr : dlookup ctx.topo (edgeKey p c) = none ∨
      (∃ mate, dlookup ctx.topo (edgeKey p c) = some mate ∧
        (mkJointMimic ctx.topoRel ctx.topo mate = none ∨
          (mkJointMimic ctx.topoRel ctx.topo mate ≠ none ∧
            dlookup ctx.parts p = none)))) :
    processEdgeSeg1 ctx st (p, c) = none := by
  rcases herr with hmate | ⟨mate, hmate, hmim | ⟨hmim, hpart⟩⟩
  · simp only [processEdgeSeg1, hp, hmate]
  · simp only [processEdgeSeg1, hp, hmate, hmim]
  · cases hmim₂ : mkJointMimic ctx.topoRel ctx.topo mate with
    | none => exact absurd hmim₂ hmim
    | some jm => simp only [processEdgeSeg1, hp, hmate, hmim₂, hpart]

/-- Equation of the second task segment on the full path. -/
theorem processEdgeSeg2_eq_full {ctx : SynthCtx} {st : SynthState}
    {pd : Pending} {mate : MateFeatureData} {childPart : Part}
    (hmate : dlookup ctx.topo pd.mateKey = some mate)
    (hpart : dlookup ctx.parts pd.child = some childPart) :
    processEdgeSeg2 ctx st pd =
      some { st with
        links := dinsert st.links pd.child
          (get_robot_link ctx.colorDraw pd.child childPart ctx.wid
            (some mate)).link
        linkWrites := st.linkWrites ++ [pd.child]
        assets := dinsert st.assets pd.child
          (get_robot_link ctx.colorDraw pd.child childPart ctx.wid
            (some mate)).dl
        assetWrites := st.assetWrites ++ [pd.child]
        stlTf := dinsert st.stlTf pd.child
          (get_robot_link ctx.colorDraw pd.child childPart ctx.wid
            (some mate)).stl_to_link_tf } := by
  simp only [processEdgeSeg2, hmate, hpart]

/-- The second task segment raises when the mate or the child part is
missing. -/
theorem processEdgeSeg2_eq_err {ctx : SynthCtx} {st : SynthState}
    {pd : Pending}
    (herr : dlookup ctx.topo pd.mateKey = none ∨
      (∃ mate, dlookup ctx.topo pd.mateKey = some mate ∧
        dlookup ctx.parts pd.child = none)) :
    processEdgeSeg2 ctx st pd = none := by
  rcases herr with hmate | ⟨mate, hmate, hpart⟩
  · simp only [processEdgeSeg2, hmate]
  · simp only [processEdgeSeg2, hmate, hpart]

/-- The first task segment never draws a color: its outcome is the same,
up to color erasure, for two runs whose states agree up to color
erasure. -/
theorem processEdgeSeg1_erase (sanitize : String → String)
    (c1 c2 : String → Colors) (parts : List (String × Part))
    (topo : MateDict) (topoRel : RelDict) (wid : String)
    (st1 st2 : SynthState) (e : String × String)
    (h : eraseStateColors st1 = eraseStateColors st2) :
    (processEdgeSeg1 ⟨sanitize, c1, parts, topo, topoRel, wid⟩ st1 e).map
        (fun r => (eraseStateColors r.1, r.2)) =
      (processEdgeSeg1 ⟨sanitize, c2, parts, topo, topoRel, wid⟩ st2 e).map
        (fun r => (eraseStateColors r.1, r.2)) := by
  obtain ⟨p, c⟩ := e
  have hstl : st1.stlTf = st2.stlTf := by
    have h2 := congrArg SynthState.stlTf h
    exact h2
  have hjoints : st1.joints = st2.joints := by
    have h2 := congrArg SynthState.joints h
    exact h2
  have hassets : st1.assets = st2.assets := by
    have h2 := congrArg SynthState.assets h
    exact h2
  have hlw : st1.linkWrites = st2.linkWrites := by
    have h2 := congrArg SynthState.linkWrites h
    exact h2
  have hjw : st1.jointWrites = st2.jointWrites := by
    have h2 := congrArg SynthState.jointWrites h
    exact h2
  have haw : st1.assetWrites = st2.assetWrites := by
    have h2 := congrArg SynthState.assetWrites h
    exact h2
  have hwarn : st1.warnings = st2.warnings := by
    have h2 := congrArg SynthState.warnings h
    exact h2
  have hlinks : st1.links.map (fun kv => (kv.1, eraseLinkColor kv.2)) =
      st2.links.map (fun kv => (kv.1, eraseLinkColor kv.2)) := by
    have h2 := congrArg SynthState.links h
    exact h2
  cases hp : dlookup st2.stlTf p with
  | none =>
    have hp1 : dlookup st1.stlTf p = none := by rw [hstl, hp]
    rw [processEdgeSeg1_eq_noparent hp1, processEdgeSeg1_eq_noparent hp]
    simp only [Option.map_some', Prod.mk.injEq, eraseStateColors]
    rw [hlinks, hjoints, hassets, hstl, hlw, hjw, haw, hwarn]
  | some ptf =>
    have hp1 : dlookup st1.stlTf p = some ptf := by rw [hstl, hp]
    cases hmate : dlookup topo (edgeKey p c) with
    | none =>
      rw [processEdgeSeg1_eq_err hp1 (Or.inl hmate),
        processEdgeSeg1_eq_err hp (Or.inl hmate)]
    | some mate =>
      cases hmim : mkJointMimic topoRel topo mate with
      | none =>
        rw [processEdgeSeg1_eq_err hp1 (Or.inr ⟨mate, hmate, Or.inl hmim⟩),
          processEdgeSeg1_eq_err hp (Or.inr ⟨mate, hmate, Or.inl hmim⟩)]
      | some jm =>
        cases hpart : dlookup parts p with
        | none =>
          rw [processEdgeSeg1_eq_err hp1 (Or.inr ⟨mate, hmate,
              Or.inr ⟨(by rw [hmim]; intro hh; cases hh), hpart⟩⟩),
            processEdgeSeg1_eq_err hp (Or.inr ⟨mate, hmate,
              Or.inr ⟨(by rw [hmim]; intro hh; cases hh), hpart⟩⟩)]
        | some parentPart =>
          rw [processEdgeSeg1_eq_full hp1 hmate hmim hpart,
            processEdgeSeg1_eq_full hp hmate hmim hpart]
          simp only [Option.map_some', Prod.mk.injEq, eraseStateColors]
          rw [foldl_dinsert_map_era _ _ _ hlinks, hjoints, hassets, hstl,
            hlw, hjw, haw, hwarn]

/-- The second task segment draws one color; after erasure its outcome is
independent of the draw. -/
theorem processEdgeSeg2_erase (sanitize : String → String)
    (c1 c2 : String → Colors) (parts : List (String × Part))
    (topo : MateDict) (topoRel : RelDict) (wid : String)
    (st1 st2 : SynthState) (pd : Pending)
    (h : eraseStateColors st1 = eraseStateColors st2) :
    (processEdgeSeg2 ⟨sanitize, c1, parts, topo, topoRel, wid⟩ st1 pd).map
        eraseStateColors =
      (processEdgeSeg2 ⟨sanitize, c2, parts, topo, topoRel, wid⟩ st2 pd).map
        eraseStateColors := by
  have hstl : st1.stlTf = st2.stlTf := by
    have h2 := congrArg SynthState.stlTf h
    exact h2
  have hjoints : st1.joints = st2.joints := by
    have h2 := congrArg SynthState.joints h
    exact h2
  have hassets : st1.assets = st2.assets := by
    have h2 := congrArg SynthState.assets h
    exact h2
  have hlw : st1.linkWrites = st2.linkWrites := by
    have h2 := congrArg SynthState.linkWrites h
    exact h2
  have hjw : st1.jointWrites = st2.jointWrites := by
    have h2 := congrArg SynthState.jointWrites h
    exact h2
  have haw : st1.assetWrites = st2.assetWrites := by
    have h2 := congrArg SynthState.assetWrites h
    exact h2
  have hwarn : st1.warnings = st2.warnings := by
    have h2 := congrArg SynthState.warnings h
    exact h2
  have hlinks : st1.links.map (fun kv => (kv.1, eraseLinkColor kv.2)) =
      st2.links.map (fun kv => (kv.1, eraseLinkColor kv.2)) := by
    have h2 := congrArg SynthState.links h
    exact h2
  cases hmate : dlookup topo pd.mateKey with
  | none =>
    rw [processEdgeSeg2_eq_err (Or.inl hmate),
      processEdgeSeg2_eq_err (Or.inl hmate)]
  | some mate =>
    cases hpart : dlookup parts pd.child with
    | none =>
      rw [processEdgeSeg2_eq_err (Or.inr ⟨mate, hmate, hpart⟩),
        processEdgeSeg2_eq_err (Or.inr ⟨mate, hmate, hpart⟩)]
    | some childPart =>
      rw [processEdgeSeg2_eq_full hmate hpart,
        processEdgeSeg2_eq_full hmate hpart]
      have hera : eraseLinkColor
          (get_robot_link c1 pd.child childPart wid (some mate)).link =
          eraseLinkColor
            (get_robot_link c2 pd.child childPart wid (some mate)).link := rfl
      have hdl : (get_robot_link c1 pd.child childPart wid (some mate)).dl =
          (get_robot_link c2 pd.child childPart wid (some mate)).dl := rfl
      have htf : (get_robot_link c1 pd.child childPart wid
            (some mate)).stl_to_link_tf =
          (get_robot_link c2 pd.child childPart wid
            (some mate)).stl_to_link_tf := rfl
      simp only [Option.map_some', eraseStateColors]
      rw [dinsert_map_value, dinsert_map_value, hera, hlinks, hjoints,
        hassets, hstl, hlw, hjw, haw, hwarn, hdl, htf]

/-- Color erasure commutes with a whole scheduled run: two runs under
distinct color oracles, started from states equal up to erasure, stay
equal up to erasure at every schedule, task list included. -/
theorem runSched_erase (sanitize : String → String)
    (c1 c2 : String → Colors) (parts : List (String × Part))
    (topo : MateDict) (topoRel : RelDict) (wid : String)
    (edges : List (String × String)) (sched : List Nat) :
    ∀ (tasks : List TaskState) (st1 st2 : SynthState),
      eraseStateColors st1 = eraseStateColors st2 →
      (runSched ⟨sanitize, c1, parts, topo, topoRel, wid⟩ edges sched
          tasks st1).map (fun r => (r.1, eraseStateColors r.2)) =
        (runSched ⟨sanitize, c2, parts, topo, topoRel, wid⟩ edges sched
          tasks st2).map (fun r => (r.1, eraseStateColors r.2)) := by
  induction sched with
  | nil =>
    intro tasks st1 st2 h
    simp only [runSched, Option.map_some']
    rw [h]
  | cons i rest ih =>
    intro tasks st1 st2 h
    simp only [runSched]
    cases hedge : edges.get? i with
    | none =>
      cases htask : tasks.get? i with
      | none => simp only [hedge, htask]; exact ih tasks st1 st2 h
      | some t => simp only [hedge, htask]; exact ih tasks st1 st2 h
    | some e =>
      cases htask : tasks.get? i with
      | none => simp only [hedge, htask]; exact ih tasks st1 st2 h
      | some t =>
        simp only [hedge, htask]
        by_cases hpc0 : t.pc = 0
        · rw [if_pos hpc0, if_pos hpc0]
          have hseg := processEdgeSeg1_erase sanitize c1 c2 parts topo
            topoRel wid st1 st2 e h
          cases h1 : processEdgeSeg1 ⟨sanitize, c1, parts, topo, topoRel,
              wid⟩ st1 e with
          | none =>
            cases h2 : processEdgeSeg1 ⟨sanitize, c2, parts, topo, topoRel,
                wid⟩ st2 e with
            | none => simp only [h1, h2]
            | some pr2 =>
              rw [h1, h2] at hseg
              simp only [Option.map_none', Option.map_some'] at hseg
              exact Option.noConfusion hseg
          | some pr1 =>
            obtain ⟨s1', op1⟩ := pr1
            cases h2 : processEdgeSeg1 ⟨sanitize, c2, parts, topo, topoRel,
                wid⟩ st2 e with
            | none =>
              rw [h1, h2] at hseg
              simp only [Option.map_none', Option.map_some'] at hseg
              exact Option.noConfusion hseg
            | some pr2 =>
              obtain ⟨s2', op2⟩ := pr2
              rw [h1, h2] at hseg
              simp only [Option.map_some', Option.some.injEq,
                Prod.mk.injEq] at hseg
              obtain ⟨hera, hop⟩ := hseg
              subst hop
              simp only [h1, h2]
              exact ih _ s1' s2' hera
        · rw [if_neg hpc0, if_neg hpc0]
          by_cases hpc1 : t.pc = 1
          · rw [if_pos hpc1, if_pos hpc1]
            cases hpend : t.pend with
            | none => simp only [hpend, Option.map_none']
            | some pd =>
              simp only [hpend]
              have hseg := processEdgeSeg2_erase sanitize c1 c2 parts topo
                topoRel wid st1 st2 pd h
              cases h1 : processEdgeSeg2 ⟨sanitize, c1, parts, topo,
                  topoRel, wid⟩ st1 pd with
              | none =>
                cases h2 : processEdgeSeg2 ⟨sanitize, c2, parts, topo,
                    topoRel, wid⟩ st2 pd with
                | none => simp only [h1, h2]
                | some s2' =>
                  rw [h1, h2] at hseg
                  simp only [Option.map_none', Option.map_some'] at hseg
                  exact Option.noConfusion hseg
              | some s1' =>
                cases h2 : processEdgeSeg2 ⟨sanitize, c2, parts, topo,
                    topoRel, wid⟩ st2 pd with
                | none =>
                  rw [h1, h2] at hseg
                  simp only [Option.map_none', Option.map_some'] at hseg
                  exact Option.noConfusion hseg
                | some s2' =>
                  rw [h1, h2] at hseg
                  simp only [Option.map_some', Option.some.injEq] at hseg
                  simp only [h1, h2]
                  exact ih (tasks.set i ⟨2, none⟩) s1' s2' hseg
          · rw [if_neg hpc1, if_neg hpc1]
            exact ih tasks st1 st2 h

/-- Onshape.C8: refuting the claim as stated — two synthesis runs over the
identical input produce different link maps when the non-reproducible
random color source draws differently: the root link's visual material
color is the drawn color, so it is not a deterministic function of the
input. -/
theorem C8_counterexample :
    (runUrdf (fun s => s) (fun _ => Colors.red) exC8
        (seqSchedule exC8.edges.length)).map
        (fun st => ((dlookup st.links "r").bind Link.visual).map
          (fun v => v.material.color)) ≠
      (runUrdf (fun s => s) (fun _ => Colors.green) exC8
          (seqSchedule exC8.edges.length)).map
        (fun st => ((dlookup st.links "r").bind Link.visual).map
          (fun v => v.material.color)) := by decide

/-- Onshape.C8 (amended): up to the visual material colors, the output is a
deterministic function of the input and the interleaving: two runs over the
identical input under the same interleaving but arbitrary color draws agree
on every link, joint, asset, transform, write log and warning once every
color is overwritten. -/
theorem C8_deterministic_up_to_color (sanitize : String → String)
    (c1 c2 : String → Colors) (inp : UrdfInput) (sched : List Nat) :
    (runUrdf sanitize c1 inp sched).map eraseStateColors =
      (runUrdf sanitize c2 inp sched).map eraseStateColors := by
  simp only [runUrdf]
  cases htr : get_topological_mates inp.edges inp.mates inp.relations with
  | none => rfl
  | some tr =>
    cases hroot : dlookup inp.parts inp.rootNode with
    | none => rfl
    | some rootPart =>
      have hrs : eraseStateColors (rootState c1 inp rootPart) =
          eraseStateColors (rootState c2 inp rootPart) := rfl
      have hrun := runSched_erase sanitize c1 c2 inp.parts tr.topo
        tr.topoRel inp.wid inp.edges sched
        (inp.edges.map fun _ => (⟨0, none⟩ : TaskState))
        (rootState c1 inp rootPart) (rootState c2 inp rootPart) hrs
      simp only [mkCtx]
      cases hr1 : runSched ⟨sanitize, c1, inp.parts, tr.topo, tr.topoRel,
          inp.wid⟩ inp.edges sched
          (inp.edges.map fun _ => (⟨0, none⟩ : TaskState))
          (rootState c1 inp rootPart) with
      | none =>
        cases hr2 : runSched ⟨sanitize, c2, inp.parts, tr.topo, tr.topoRel,
            inp.wid⟩ inp.edges sched
            (inp.edges.map fun _ => (⟨0, none⟩ : TaskState))
            (rootState c2 inp rootPart) with
        | none => rfl
        | some pr2 =>
          rw [hr1, hr2] at hrun
          simp only [Option.map_none', Option.map_some'] at hrun
          exact Option.noConfusion hrun
      | some pr1 =>
        obtain ⟨ts1, s1⟩ := pr1
        cases hr2 : runSched ⟨sanitize, c2, inp.parts, tr.topo, tr.topoRel,
            inp.wid⟩ inp.edges sched
            (inp.edges.map fun _ => (⟨0, none⟩ : TaskState))
            (rootState c2 inp rootPart) with
        | none =>
          rw [hr1, hr2] at hrun
          simp only [Option.map_none', Option.map_some'] at hrun
          exact Option.noConfusion hrun
        | some pr2 =>
          obtain ⟨ts2, s2⟩ := pr2
          rw [hr1, hr2] at hrun
          simp only [Option.map_some', Option.some.injEq,
            Prod.mk.injEq] at hrun
          obtain ⟨hts, hst⟩ := hrun
          show some (eraseStateColors s1) = some (eraseStateColors s2)
          rw [hst]

end Onshape
